import Mathlib

/-!
Shallow embedding of the `astrbot_plugin_AzusaImp` plugin (two Python
variants: `src/main.py`, the older one, and `src/unnamed/part_000`, the
newer one).  Python strings are Lean `String` / `List Char`; Python dicts
are association lists with Python insertion-order semantics; Python values
stored in the JSON tables are modelled by `PyVal` (strings and ints; the
only value kinds the plugin stores, floats excluded from the model);
fallible operations return `Option`.
-/

set_option linter.unusedVariables false
set_option linter.unnecessarySeqFocus false

/-- ASCII whitespace stripped by Python's `int()` (the model restricts
Python's Unicode whitespace to its ASCII subset). -/
def isPySpace (c : Char) : Bool :=
  c = ' ' || c = '\t' || c = '\n' || c = '\r' || c = '\x0b' || c = '\x0c'

/-- `str.strip()` as used implicitly by Python's `int()`. -/
def pyStrip (l : List Char) : List Char :=
  ((l.dropWhile isPySpace).reverse.dropWhile isPySpace).reverse

/-- Numeric value of an ASCII digit character. -/
def digitVal (c : Char) : Nat := c.toNat - 48

/-- Digit run of Python's `int()` after the first digit: decimal digits with
single underscores allowed strictly between digits (PEP 515). -/
def pyUDigitsGo (acc : Nat) : List Char → Option Nat
  | [] => some acc
  | c :: cs =>
    if c.isDigit then pyUDigitsGo (acc * 10 + digitVal c) cs
    else if c = '_' then
      match cs with
      | d :: ds => if d.isDigit then pyUDigitsGo (acc * 10 + digitVal d) ds else none
      | [] => none
    else none

/-- Nonempty digit run (with PEP 515 underscores) for Python's `int()`. -/
def pyUDigits : List Char → Option Nat
  | [] => none
  | c :: cs => if c.isDigit then pyUDigitsGo (digitVal c) cs else none

/-- Model of Python `int(s)`: strip whitespace, optional sign, decimal digits
(ASCII digits only in the model); `none` models a raised `ValueError`. -/
def pyInt? (l : List Char) : Option Int :=
  match pyStrip l with
  | '-' :: r => (pyUDigits r).map (fun n => -(n : Int))
  | '+' :: r => (pyUDigits r).map (fun n => (n : Int))
  | t => (pyUDigits t).map (fun n => (n : Int))

/-- Model of Python `s.split(sep)` for a one-character separator:
`"".split('-') = [""]`, separators at the ends produce empty fields. -/
def splitOnChar (sep : Char) : List Char → List (List Char)
  | [] => [[]]
  | c :: cs =>
    if c = sep then [] :: splitOnChar sep cs
    else
      match splitOnChar sep cs with
      | [] => [[c]]
      | p :: ps => (c :: p) :: ps

/-- A Python value stored in the plugin's JSON tables: a string or an int. -/
inductive PyVal where
  | pstr (s : String)
  | pint (n : Int)
deriving DecidableEq, Repr

/-- A Python dict with `String` keys, as an insertion-ordered association
list with distinct keys maintained by `dictSet`. -/
abbrev PyDict (α : Type) := List (String × α)

/-- A single user record (`user_info.json` value): a raw string-keyed dict. -/
abbrev PyRec := PyDict PyVal

/-- The whole user-info table, keyed by QQ number string. -/
abbrev UserTable := PyDict PyRec

/-- Python `d.get(key)` / `d[key]` lookup (first occurrence). -/
def pyGet {α : Type} : PyDict α → String → Option α
  | [], _ => none
  | (k, v) :: rest, key => if k = key then some v else pyGet rest key

/-- Python `d.get(key, default)`. -/
def pyGetD {α : Type} (d : PyDict α) (key : String) (dflt : α) : α :=
  (pyGet d key).getD dflt

/-- Python `d[key] = v`: update the first occurrence in place, else append. -/
def dictSet {α : Type} : PyDict α → String → α → PyDict α
  | [], key, v => [(key, v)]
  | (k, w) :: rest, key, v =>
    if k = key then (k, v) :: rest else (k, w) :: dictSet rest key v

/-- The key set (Python `d.keys()`, as a list). -/
def pyKeys {α : Type} (d : PyDict α) : List String := d.map Prod.fst

/-- Python `key in d`. -/
def hasKey {α : Type} (d : PyDict α) (key : String) : Bool := (pyGet d key).isSome

/-- Python truthiness of a stored value. -/
def pyTruthy : PyVal → Bool
  | .pstr s => s ≠ ""
  | .pint n => n ≠ 0

/-- Python truthiness of `d.get(key)` (missing key gives falsy `None`). -/
def pyTruthyOpt : Option PyVal → Bool
  | none => false
  | some v => pyTruthy v

/-- Python `f"{v}"` for a stored value. -/
def pyValStr : PyVal → String
  | .pstr s => s
  | .pint n => toString n

/-- Python `f"{v}"` when `v` may be `None` (a missing `dict.get`). -/
def pyOptStr : Option PyVal → String
  | none => "None"
  | some v => pyValStr v

/-- Python `v == s` for a stored value against a `str` (an int never equals
a string in Python). -/
def pyEqStr : PyVal → String → Bool
  | .pstr s, t => s = t
  | .pint _, _ => false

namespace Part000

/-- `parse_birthday` of `src/unnamed/part_000` (lines 147-155): if the three
birthday fields are present and truthy, join them with dashes by f-string,
else return the sentinel `"未知"`. -/
def parse_birthday (si : PyRec) : String :=
  match pyGet si "birthday_year", pyGet si "birthday_month", pyGet si "birthday_day" with
  | some y, some m, some d =>
    if pyTruthy y && pyTruthy m && pyTruthy d then
      pyValStr y ++ "-" ++ pyValStr m ++ "-" ++ pyValStr d
    else "未知"
  | _, _, _ => "未知"

/-- `calculate_age` of `src/unnamed/part_000` (lines 157-183), with
`datetime.now()` made an explicit `(cy, cm, cd)` parameter.  The
`len(parts) != 3` check and the tuple unpacking are merged into one match;
a failing `int()` (`none`) lands in the catch-all answer `0`, modelling the
broad `except` clause. -/
def calculate_age (birthday : String) (cy cm cd : Int) : Int :=
  if birthday = "未知" then 0
  else
    match splitOnChar '-' birthday.data with
    | [p0, p1, p2] =>
      match pyInt? p0, pyInt? p1, pyInt? p2 with
      | some y, some m, some d =>
        (cy - y) - (if cm < m ∨ (cm = m ∧ cd < d) then 1 else 0)
      | _, _, _ => 0
    | _ => 0

/-- `get_gender_text` of `src/unnamed/part_000` (lines 185-192):
`gender_map.get(gender, '未知')`. -/
def get_gender_text (gender : String) : String :=
  if gender = "male" then "男"
  else if gender = "female" then "女"
  else if gender = "unknown" then "未知"
  else "未知"

/-- `get_group_role_text` (lines 143-146): `role_map.get(role, '成员')`;
the argument is whatever was stored, hence a `PyVal`. -/
def get_group_role_text (role : PyVal) : String :=
  if role = .pstr "owner" then "群主"
  else if role = .pstr "admin" then "管理员"
  else if role = .pstr "member" then "成员"
  else "成员"

/-- `self.calculate_age(birthday)` where `birthday` came out of a dict: a
non-string raises `AttributeError` on `.split`, caught inside
`calculate_age`, giving `0`. -/
def calculate_age_val (v : PyVal) (cy cm cd : Int) : Int :=
  match v with
  | .pstr s => calculate_age s cy cm cd
  | .pint _ => 0

/-- The `prompt_parts` list built by `format_user_info_for_prompt` of
`src/unnamed/part_000` (lines 194-226), before joining; the Python local
variables (`birthday`, `age`, `group_title`) are inlined. -/
def format_parts (info : PyRec) (is_group : Bool) (cy cm cd : Int) : List String :=
  ["用户QQ号: " ++ pyValStr (pyGetD info "qq_number" (.pstr "未知")),
   "昵称: " ++ pyValStr (pyGetD info "nickname" (.pstr "未知"))]
  ++ (if pyGet info "gender" ≠ some (.pstr "未知") then
        ["性别: " ++ pyOptStr (pyGet info "gender")]
      else [])
  ++ ["生日: " ++ pyValStr (pyGetD info "birthday" (.pstr "未知"))]
  ++ (if pyGetD info "birthday" (.pstr "未知") ≠ .pstr "未知" then
        (if calculate_age_val (pyGetD info "birthday" (.pstr "未知")) cy cm cd > 0 then
           ["年龄: " ++
             toString (calculate_age_val (pyGetD info "birthday" (.pstr "未知")) cy cm cd) ++
             "岁"]
         else [])
      else [])
  ++ (if is_group then
        (if pyTruthyOpt (pyGet info "group_role") then
           ["群身份: " ++ get_group_role_text ((pyGet info "group_role").getD (.pstr ""))]
         else [])
        ++ (if pyTruthy (pyGetD info "group_title" (.pstr "")) &&
               pyGetD info "group_title" (.pstr "") ≠ .pstr "无" then
              ["群头衔: " ++ pyValStr (pyGetD info "group_title" (.pstr ""))]
            else [])
      else [])

/-- `format_user_info_for_prompt` of `src/unnamed/part_000`:
`"，".join(prompt_parts)`. -/
def format_user_info_for_prompt (info : PyRec) (is_group : Bool) (cy cm cd : Int) : String :=
  String.intercalate "，" (format_parts info is_group cy cm cd)

end Part000

namespace MainPy

/-- `parse_birthday` of `src/main.py` (lines 86-95); textually identical to
the newer variant's. -/
def parse_birthday (si : PyRec) : String :=
  match pyGet si "birthday_year", pyGet si "birthday_month", pyGet si "birthday_day" with
  | some y, some m, some d =>
    if pyTruthy y && pyTruthy m && pyTruthy d then
      pyValStr y ++ "-" ++ pyValStr m ++ "-" ++ pyValStr d
    else "未知"
  | _, _, _ => "未知"

/-- `calculate_age` of `src/main.py` (lines 97-122); textually identical to
the newer variant's. -/
def calculate_age (birthday : String) (cy cm cd : Int) : Int :=
  if birthday = "未知" then 0
  else
    match splitOnChar '-' birthday.data with
    | [p0, p1, p2] =>
      match pyInt? p0, pyInt? p1, pyInt? p2 with
      | some y, some m, some d =>
        (cy - y) - (if cm < m ∨ (cm = m ∧ cd < d) then 1 else 0)
      | _, _, _ => 0
    | _ => 0

/-- `get_gender_text` of `src/main.py` (lines 124-131); textually identical
to the newer variant's. -/
def get_gender_text (gender : String) : String :=
  if gender = "male" then "男"
  else if gender = "female" then "女"
  else if gender = "unknown" then "未知"
  else "未知"

end MainPy

namespace Part000

/-- The literal text before the id in the placeholder regex
`\[User ID: (\d+), Nickname: ([^\]]+)\]` (line 24 / line 233). -/
def litUserId : List Char := "[User ID: ".data

/-- The literal text between the id and the nickname in the placeholder. -/
def litNick : List Char := ", Nickname: ".data

/-- Strip an expected literal: `some rest` iff the input is the literal
followed by `rest`. -/
def dropLit : List Char → List Char → Option (List Char)
  | [], l => some l
  | _ :: _, [] => none
  | p :: ps, c :: cs => if c = p then dropLit ps cs else none

/-- One attempt of the placeholder regex at the head of the text.  Both
captured groups (`\d+` and `[^\]]+`) are followed by characters they cannot
match, so Python's greedy match is the maximal run and no backtracking can
occur; `some (id, nick, rest)` returns the two groups and the text after
the match.  (`\d` is modelled as ASCII digits.) -/
def matchPlaceholder (l : List Char) : Option (List Char × List Char × List Char) :=
  (dropLit litUserId l).bind fun r1 =>
    if (r1.takeWhile Char.isDigit).isEmpty then none
    else
      (dropLit litNick (r1.dropWhile Char.isDigit)).bind fun r3 =>
        if (r3.takeWhile (fun c => c ≠ ']')).isEmpty then none
        else
          match r3.dropWhile (fun c => c ≠ ']') with
          | c :: r5 =>
            if c = ']' then
              some (r1.takeWhile Char.isDigit, r3.takeWhile (fun c => c ≠ ']'), r5)
            else none
          | [] => none

/-- The placeholder text `[User ID: {id}, Nickname: {nick}]` (both the
matched text `m.group(0)` and the rebuilt replacement f-string). -/
def tokenChars (qq nick : List Char) : List Char :=
  litUserId ++ qq ++ litNick ++ nick ++ [']']

/-- `tokenChars` as a `String`. -/
def tokenStr (qq nick : List Char) : String :=
  String.mk (tokenChars qq nick)

/-- `re.sub(pattern, callback, text)` for the placeholder pattern: scan left
to right, replace each leftmost non-overlapping match by `cb id nick` and
continue after it.  The `fuel` argument is a standard totality device; it
never runs out when `fuel ≥ length` (rest of a match is strictly shorter
than the text it matched in). -/
def subFuel (cb : List Char → List Char → List Char) : Nat → List Char → List Char
  | 0, l => l
  | _ + 1, [] => []
  | f + 1, c :: cs =>
    match matchPlaceholder (c :: cs) with
    | some (d, n, r) => cb d n ++ subFuel cb f r
    | none => c :: subFuel cb f cs

/-- `re.sub` over the whole text, with enough fuel. -/
def pyReSub (cb : List Char → List Char → List Char) (l : List Char) : List Char :=
  subFuel cb l.length l

/-- `replace_callback` of `src/unnamed/part_000` (lines 236-253): look up
the id; keep the matched text when no record exists, when the stored
nickname equals the matched nickname, or when the stored nickname is falsy;
otherwise rebuild the token with the stored nickname. -/
def replaceCallback (tbl : UserTable) (qq old : List Char) : List Char :=
  match pyGet tbl (String.mk qq) with
  | none => tokenChars qq old
  | some r =>
    let nv := pyGetD r "nickname" (.pstr "")
    if pyEqStr nv (String.mk old) then tokenChars qq old
    else if pyTruthy nv then tokenChars qq (pyValStr nv).data
    else tokenChars qq old

/-- `replace_nickname_in_context` of `src/unnamed/part_000` (lines 228-260):
return the text unchanged when the table or the text is empty (the falsy
guard), else `re.sub` with the callback. -/
def replace_nickname_in_context (tbl : UserTable) (pre_text : String) : String :=
  if tbl = [] ∨ pre_text = "" then pre_text
  else String.mk (pyReSub (replaceCallback tbl) pre_text.data)

end Part000

namespace Part000

/-- A command's visible outcome: the `yield event.plain_result(...)` text,
split by whether it is the success message or an error message. -/
inductive Reply where
  | ok (msg : String)
  | err (msg : String)
deriving DecidableEq, Repr

/-- The birthday validation block of `update_birthday` (lines 366-380):
split on `'-'` into exactly three `int()`-parseable fields with
`1900 <= year <= datetime.now().year`, `1 <= month <= 12`, `1 <= day <= 31`;
any raised `ValueError` means rejection. -/
def birthdayValid (todayYear : Int) (s : String) : Bool :=
  match splitOnChar '-' s.data with
  | [p0, p1, p2] =>
    match pyInt? p0, pyInt? p1, pyInt? p2 with
    | some y, some m, some d =>
      (1900 ≤ y && y ≤ todayYear) && (1 ≤ m && m ≤ 12) && (1 ≤ d && d ≤ 31)
    | _, _, _ => false
  | _ => false

/-- `update_nickname` of `src/unnamed/part_000` (lines 324-350) as a
transition on the persisted user table: reject when the sender has no
record (no save happens), else set `nickname` in place and save. -/
def update_nickname (qq new : String) (t : UserTable) : UserTable × Reply :=
  if ¬ hasKey t qq then
    (t, .err "您的用户信息不存在，请先发送一条消息触发信息记录")
  else
    (dictSet t qq (dictSet (pyGetD t qq []) "nickname" (.pstr new)),
     .ok ("已更新您的昵称: " ++ new))

/-- `update_birthday` of `src/unnamed/part_000` (lines 352-395): reject when
the sender has no record or validation fails (no save), else set `birthday`
to the accepted string verbatim and save. -/
def update_birthday (qq new : String) (todayYear : Int) (t : UserTable) : UserTable × Reply :=
  if ¬ hasKey t qq then
    (t, .err "您的用户信息不存在，请先发送一条消息触发信息记录")
  else if ¬ birthdayValid todayYear new then
    (t, .err "生日格式不正确，请使用 YYYY-MM-DD 格式")
  else
    (dictSet t qq (dictSet (pyGetD t qq []) "birthday" (.pstr new)),
     .ok ("已更新您的生日: " ++ new))

/-- `update_gender` of `src/unnamed/part_000` (lines 397-429): reject when
the sender has no record or the value is not `男`/`女` (no save), else set
`gender` and save. -/
def update_gender (qq new : String) (t : UserTable) : UserTable × Reply :=
  if ¬ hasKey t qq then
    (t, .err "您的用户信息不存在，请先发送一条消息触发信息记录")
  else if ¬ (new = "男" ∨ new = "女") then
    (t, .err "性别必须是: 男, 女")
  else
    (dictSet t qq (dictSet (pyGetD t qq []) "gender" (.pstr new)),
     .ok ("已更新您的性别: " ++ new))

/-- `on_llm_request_hook` of `src/unnamed/part_000` (lines 262-317) as a
transition on the persisted user table: non-QQ platforms change nothing; a
known sender changes nothing; a new sender's fetched record (the result of
`get_qq_user_info`, an external API call, hence a parameter) is inserted
and saved.  The group-info writes go to the separate group file and the
prompt rewriting does not touch the user table. -/
def on_llm_request_hook (platform qq : String) (fetched : PyRec) (t : UserTable) : UserTable :=
  if platform ≠ "aiocqhttp" then t
  else if hasKey t qq then t
  else dictSet t qq fetched

/-- One observable operation on the persisted user-info table. -/
inductive Op where
  | hook (platform qq : String) (fetched : PyRec)
  | editNickname (qq v : String)
  | editBirthday (qq v : String) (todayYear : Int)
  | editGender (qq v : String)

/-- Apply one operation to the persisted user table. -/
def applyOp (t : UserTable) : Op → UserTable
  | .hook p q f => on_llm_request_hook p q f t
  | .editNickname q v => (update_nickname q v t).1
  | .editBirthday q v y => (update_birthday q v y t).1
  | .editGender q v => (update_gender q v t).1

/-- Apply a sequence of operations, threading the persisted table. -/
def applyOps (t : UserTable) (ops : List Op) : UserTable := ops.foldl applyOp t

end Part000

/-! ### Claim-side definitions for the nickname-rewriting claims -/

/-- The per-match rewrite exactly as claim C3 words it: replace the
nickname portion with the stored nickname whenever a record exists, keep
the token only when no record exists or the stored nickname equals the one
already in the token. -/
def claimCallbackC3 (tbl : UserTable) (qq old : List Char) : List Char :=
  match pyGet tbl (String.mk qq) with
  | none => Part000.tokenChars qq old
  | some r =>
    if pyGetD r "nickname" (.pstr "") = .pstr (String.mk old) then Part000.tokenChars qq old
    else Part000.tokenChars qq (pyValStr (pyGetD r "nickname" (.pstr ""))).data

/-- `replace_nickname_in_context` as claim C3 describes it. -/
def claimReplaceC3 (tbl : UserTable) (pre_text : String) : String :=
  if tbl = [] ∨ pre_text = "" then pre_text
  else String.mk (Part000.pyReSub (claimCallbackC3 tbl) pre_text.data)

/-- The per-match rewrite of the amended claim: additionally keep the token
when the stored nickname is absent or the empty string. -/
def amendedCallbackC3 (tbl : UserTable) (qq old : List Char) : List Char :=
  match pyGet tbl (String.mk qq) with
  | none => Part000.tokenChars qq old
  | some r =>
    match pyGet r "nickname" with
    | none => Part000.tokenChars qq old
    | some nv =>
      if pyValStr nv = "" ∨ pyValStr nv = String.mk old then Part000.tokenChars qq old
      else Part000.tokenChars qq (pyValStr nv).data

/-- `replace_nickname_in_context` as the amended claim describes it. -/
def amendedReplaceC3 (tbl : UserTable) (pre_text : String) : String :=
  if tbl = [] ∨ pre_text = "" then pre_text
  else String.mk (Part000.pyReSub (amendedCallbackC3 tbl) pre_text.data)

/-- Decidable side condition: every record's `nickname` value, when
present, is a string (as the data model intends). -/
def nickStringsOnly (tbl : UserTable) : Bool :=
  tbl.all fun kv =>
    match pyGet kv.2 "nickname" with
    | some (.pint _) => false
    | _ => true

/-! ### Persistence: `json.dump(..., ensure_ascii=False, indent=2)` and
`json.load`, restricted to the table shape the plugin stores (string keys,
string/int leaf values; floats are outside the model). -/

/-- Lowercase hex digit, as emitted by Python's json `\u00xx` escapes. -/
def hexDigitChar (n : Nat) : Char :=
  if n < 10 then Char.ofNat (48 + n) else Char.ofNat (87 + n)

/-- Python json string escaping with `ensure_ascii=False`: only `"`, `\`
and control characters below 0x20 are escaped (shortcuts for the common
ones, `\u00xx` otherwise); everything else is emitted raw. -/
def escChar (c : Char) : List Char :=
  if c = '"' then ['\\', '"']
  else if c = '\\' then ['\\', '\\']
  else if c = '\n' then ['\\', 'n']
  else if c = '\t' then ['\\', 't']
  else if c = '\r' then ['\\', 'r']
  else if c = '\x08' then ['\\', 'b']
  else if c = '\x0c' then ['\\', 'f']
  else if c.toNat < 32 then
    ['\\', 'u', '0', '0', hexDigitChar (c.toNat / 16), hexDigitChar (c.toNat % 16)]
  else [c]

/-- Escape a whole string body. -/
def escBody : List Char → List Char
  | [] => []
  | c :: cs => escChar c ++ escBody cs

/-- A json string literal. -/
def encStr (s : String) : List Char := '"' :: (escBody s.data ++ ['"'])

/-- Decimal digits of `n` (big-endian, empty for 0); the fuel argument is a
totality device, adequate whenever `n ≤ fuel`. -/
def natDigsFuel : Nat → Nat → List Char
  | 0, _ => []
  | f + 1, n =>
    if n = 0 then [] else natDigsFuel f (n / 10) ++ [Char.ofNat (48 + n % 10)]

/-- Decimal rendering of a `Nat`, as Python prints it. -/
def encNat (n : Nat) : List Char :=
  if n = 0 then ['0'] else natDigsFuel n n

/-- Decimal rendering of an `Int`, as Python's json prints ints. -/
def encInt (n : Int) : List Char :=
  if n < 0 then '-' :: encNat (-n).toNat else encNat n.toNat

/-- A json leaf value of the table. -/
def encVal : PyVal → List Char
  | .pstr s => encStr s
  | .pint n => encInt n

/-- Comma-newline separated items, each preceded by its indentation, as
`json.dump(..., indent=2)` lays out object members. -/
def sepByCommaNl (indent : List Char) : List (List Char) → List Char
  | [] => []
  | [x] => indent ++ x
  | x :: xs => indent ++ x ++ ',' :: '\n' :: sepByCommaNl indent xs

/-- An inner (user-record) object at nesting depth 1 of `indent=2` output. -/
def encRec (r : PyRec) : List Char :=
  match r.map (fun kv => encStr kv.1 ++ ':' :: ' ' :: encVal kv.2) with
  | [] => ['{', '}']
  | items => '{' :: '\n' :: (sepByCommaNl "    ".data items ++ '\n' :: [' ', ' ', '}'])

/-- The top-level table object of `indent=2` output. -/
def encTable (t : UserTable) : List Char :=
  match t.map (fun kv => encStr kv.1 ++ ':' :: ' ' :: encRec kv.2) with
  | [] => ['{', '}']
  | items => '{' :: '\n' :: (sepByCommaNl "  ".data items ++ '\n' :: ['}'])

/-- `save_user_info` (lines 51-57): the file text written on a successful
`json.dump` of the table. -/
def save_user_info (t : UserTable) : String := String.mk (encTable t)

/-- Json whitespace. -/
def isJsonWs (c : Char) : Bool := c = ' ' || c = '\t' || c = '\n' || c = '\r'

/-- Skip json whitespace. -/
def skipWs (l : List Char) : List Char := l.dropWhile isJsonWs

/-- Hex digit value, as json's `\uXXXX` accepts. -/
def hexVal? (c : Char) : Option Nat :=
  if c.isDigit then some (c.toNat - 48)
  else if 'a' ≤ c ∧ c ≤ 'f' then some (c.toNat - 87)
  else if 'A' ≤ c ∧ c ≤ 'F' then some (c.toNat - 55)
  else none

/-- Parse a json string body after the opening quote, returning the decoded
characters and the rest after the closing quote.  Raw control characters
are rejected (json strict mode); `\uXXXX` escapes denoting surrogates are
rejected (a model restriction: the printer never emits them). -/
def parseStrBody : List Char → Option (List Char × List Char)
  | [] => none
  | c :: r =>
    if c = '"' then some ([], r)
    else if c = '\\' then
      match r with
      | [] => none
      | e :: r2 =>
        if e = '"' then (parseStrBody r2).map (fun p => ('"' :: p.1, p.2))
        else if e = '\\' then (parseStrBody r2).map (fun p => ('\\' :: p.1, p.2))
        else if e = '/' then (parseStrBody r2).map (fun p => ('/' :: p.1, p.2))
        else if e = 'b' then (parseStrBody r2).map (fun p => ('\x08' :: p.1, p.2))
        else if e = 'f' then (parseStrBody r2).map (fun p => ('\x0c' :: p.1, p.2))
        else if e = 'n' then (parseStrBody r2).map (fun p => ('\n' :: p.1, p.2))
        else if e = 'r' then (parseStrBody r2).map (fun p => ('\r' :: p.1, p.2))
        else if e = 't' then (parseStrBody r2).map (fun p => ('\t' :: p.1, p.2))
        else if e = 'u' then
          match r2 with
          | a :: b2 :: c2 :: d :: rest =>
            match hexVal? a, hexVal? b2, hexVal? c2, hexVal? d with
            | some ha, some hb, some hc, some hd =>
              if ((ha * 16 + hb) * 16 + hc) * 16 + hd < 0xD800 ∨
                  0xE000 ≤ ((ha * 16 + hb) * 16 + hc) * 16 + hd then
                (parseStrBody rest).map
                  (fun p => (Char.ofNat (((ha * 16 + hb) * 16 + hc) * 16 + hd) :: p.1, p.2))
              else none
            | _, _, _, _ => none
          | _ => none
        else none
    else if c.toNat < 32 then none
    else (parseStrBody r).map (fun p => (c :: p.1, p.2))

/-- Parse the value of `acc` extended by the given decimal digits. -/
def parseDigitsAcc (acc : Nat) : List Char → Nat
  | [] => acc
  | c :: cs => parseDigitsAcc (acc * 10 + digitVal c) cs

/-- Parse a json unsigned integer token; a following `.`/`e`/`E` (a float)
is outside the model and rejected. -/
def parseNatTok (l : List Char) : Option (Nat × List Char) :=
  if (l.takeWhile Char.isDigit).isEmpty then none
  else if (l.dropWhile Char.isDigit).head? = some '.' ∨
      (l.dropWhile Char.isDigit).head? = some 'e' ∨
      (l.dropWhile Char.isDigit).head? = some 'E' then none
  else some (parseDigitsAcc 0 (l.takeWhile Char.isDigit), l.dropWhile Char.isDigit)

/-- Parse a json integer token with optional minus sign. -/
def parseIntTok (l : List Char) : Option (Int × List Char) :=
  match l with
  | [] => none
  | c :: r =>
    if c = '-' then (parseNatTok r).map (fun p => (-(p.1 : Int), p.2))
    else (parseNatTok (c :: r)).map (fun p => ((p.1 : Int), p.2))

/-- Parse a json leaf value of the table shape (string or int). -/
def parseVal (l : List Char) : Option (PyVal × List Char) :=
  match l with
  | [] => none
  | c :: r =>
    if c = '"' then (parseStrBody r).map (fun p => (.pstr (String.mk p.1), p.2))
    else (parseIntTok (c :: r)).map (fun p => (.pint p.1, p.2))

/-- Parse the members of a non-empty inner object, fuel-bounded (each
member consumes at least one character). -/
def parseRecEntries : Nat → List Char → Option (List (String × PyVal) × List Char)
  | 0, _ => none
  | f + 1, l =>
    match skipWs l with
    | [] => none
    | c :: r =>
      if c = '"' then
        match parseStrBody r with
        | none => none
        | some (k, r2) =>
          match skipWs r2 with
          | [] => none
          | c2 :: r3 =>
            if c2 = ':' then
              match parseVal (skipWs r3) with
              | none => none
              | some (v, r4) =>
                match skipWs r4 with
                | [] => none
                | c3 :: r5 =>
                  if c3 = ',' then
                    (parseRecEntries f r5).map (fun p => ((String.mk k, v) :: p.1, p.2))
                  else if c3 = '}' then some ([(String.mk k, v)], r5)
                  else none
            else none
      else none

/-- Parse an inner object into the raw member list. -/
def parseRecRaw (l : List Char) : Option (List (String × PyVal) × List Char) :=
  match skipWs l with
  | [] => none
  | c :: r =>
    if c = '{' then
      match skipWs r with
      | [] => none
      | c2 :: r2 =>
        if c2 = '}' then some ([], r2)
        else parseRecEntries (r.length + 1) r
    else none

/-- Parse the members of the non-empty top-level object, fuel-bounded. -/
def parseTableEntries : Nat → List Char → Option (List (String × List (String × PyVal)) × List Char)
  | 0, _ => none
  | f + 1, l =>
    match skipWs l with
    | [] => none
    | c :: r =>
      if c = '"' then
        match parseStrBody r with
        | none => none
        | some (k, r2) =>
          match skipWs r2 with
          | [] => none
          | c2 :: r3 =>
            if c2 = ':' then
              match parseRecRaw r3 with
              | none => none
              | some (rcd, r4) =>
                match skipWs r4 with
                | [] => none
                | c3 :: r5 =>
                  if c3 = ',' then
                    (parseTableEntries f r5).map (fun p => ((String.mk k, rcd) :: p.1, p.2))
                  else if c3 = '}' then some ([(String.mk k, rcd)], r5)
                  else none
            else none
      else none

/-- Python's `dict(...)` built from a pair sequence: later values win,
first-occurrence order is kept — exactly repeated `d[k] = v`. -/
def pyDictOfPairs {α : Type} (ps : List (String × α)) : PyDict α :=
  ps.foldl (fun d kv => dictSet d kv.1 kv.2) []

/-- Model of `json.load` on the file text, restricted to the table shape:
parse the top-level object, require end of input, and build Python dicts
from the member lists at both levels. -/
def parseTable (s : String) : Option UserTable :=
  match skipWs s.data with
  | [] => none
  | c :: r =>
    if c = '{' then
      match skipWs r with
      | [] => none
      | c2 :: r2 =>
        if c2 = '}' then (if (skipWs r2).isEmpty then some [] else none)
        else
          match parseTableEntries (r.length + 1) r with
          | none => none
          | some (entries, rest) =>
            if (skipWs rest).isEmpty then
              some (pyDictOfPairs (entries.map (fun kv => (kv.1, pyDictOfPairs kv.2))))
            else none
    else none

/-- The observable state of the user-info file for a read. -/
inductive FileState where
  | absent
  | readError
  | content (s : String)

/-- `load_user_info` (lines 31-39): missing file, failed read and failed
parse all fall back to the empty table. -/
def load_user_info : FileState → UserTable
  | .absent => []
  | .readError => []
  | .content s =>
    match parseTable s with
    | some t => t
    | none => []

/-! ### Claim-side vocabulary and helper lemmas -/

/-- The claim-side reading of "splits on `'-'` into exactly three integer
fields": the parsed `(year, month, day)` when that holds. -/
def birthdayTriple (b : String) : Option (Int × Int × Int) :=
  match splitOnChar '-' b.data with
  | [p0, p1, p2] =>
    match pyInt? p0, pyInt? p1, pyInt? p2 with
    | some y, some m, some d => some (y, m, d)
    | _, _, _ => none
  | _ => none

/-- A prompt part is "the age part" iff it starts with the literal text
`年龄: ` that only the age append produces. -/
def isAgePart (p : String) : Prop := ∃ a : List Char, p.data = "年龄: ".data ++ a

/-- Gregorian leap-year rule (claim-side, for the ISO-date predicate). -/
def isLeapYear (y : Nat) : Bool :=
  (y % 4 = 0 && y % 100 ≠ 0) || y % 400 = 0

/-- Days in a month (claim-side, for the ISO-date predicate). -/
def daysInMonth (y m : Nat) : Nat :=
  if m = 2 then (if isLeapYear y then 29 else 28)
  else if m = 4 ∨ m = 6 ∨ m = 9 ∨ m = 11 then 30
  else 31

/-- Claim-side predicate: a valid zero-padded ISO-8601 calendar date
`YYYY-MM-DD`. -/
def isValidIsoDate (s : String) : Bool :=
  match s.data with
  | [a, b, c, d, s1, e, f, s2, g, h] =>
    a.isDigit && b.isDigit && c.isDigit && d.isDigit && s1 = '-' &&
    e.isDigit && f.isDigit && s2 = '-' && g.isDigit && h.isDigit &&
    (let y := ((digitVal a * 10 + digitVal b) * 10 + digitVal c) * 10 + digitVal d
     let m := digitVal e * 10 + digitVal f
     let dy := digitVal g * 10 + digitVal h
     1 ≤ m && m ≤ 12 && 1 ≤ dy && dy ≤ daysInMonth y m)
  | _ => false

/-- The boundary condition after a printed integer: the next character (if
any) cannot extend the number token. -/
def numBoundary (rest : List Char) : Prop :=
  ∀ c, rest.head? = some c → c.isDigit = false ∧ c ≠ '.' ∧ c ≠ 'e' ∧ c ≠ 'E'

/-- Decidable well-formedness of a table as Python dicts: distinct keys at
both levels. -/
def tableNodup (t : UserTable) : Bool :=
  decide (pyKeys t).Nodup && t.all fun kv => decide (pyKeys kv.2).Nodup

/-! ### Lemmas about the placeholder scanner -/

theorem dropLit_append (p l : List Char) : Part000.dropLit p (p ++ l) = some l := by
  induction p with
  | nil => rfl
  | cons c cs ih => simp [Part000.dropLit, ih]

theorem takeWhile_append_cons (p : Char → Bool) (a : List Char) (c0 : Char) (bs : List Char)
    (ha : ∀ x ∈ a, p x = true) (hc : p c0 = false) :
    (a ++ c0 :: bs).takeWhile p = a := by
  induction a with
  | nil => simp [List.takeWhile_cons, hc]
  | cons x xs ih =>
    have hx : p x = true := ha x (List.mem_cons_self x xs)
    simp only [List.cons_append, List.takeWhile_cons, hx, if_true]
    rw [ih (fun y hy => ha y (List.mem_cons_of_mem _ hy))]

theorem dropWhile_append_cons (p : Char → Bool) (a : List Char) (c0 : Char) (bs : List Char)
    (ha : ∀ x ∈ a, p x = true) (hc : p c0 = false) :
    (a ++ c0 :: bs).dropWhile p = c0 :: bs := by
  induction a with
  | nil => simp [List.dropWhile_cons, hc]
  | cons x xs ih =>
    have hx : p x = true := ha x (List.mem_cons_self x xs)
    simp only [List.cons_append, List.dropWhile_cons, hx, if_true]
    exact ih (fun y hy => ha y (List.mem_cons_of_mem _ hy))

theorem tokenChars_cons (qq old : List Char) :
    Part000.tokenChars qq old =
      '[' :: ("User ID: ".data ++ (qq ++ (Part000.litNick ++ (old ++ [']'])))) := by
  unfold Part000.tokenChars
  rw [show Part000.litUserId = '[' :: "User ID: ".data by decide]
  simp [List.cons_append]

theorem matchPlaceholder_token (qq old ext : List Char)
    (hqq : qq ≠ []) (hdig : ∀ c ∈ qq, c.isDigit = true)
    (hold : old ≠ []) (hnb : ∀ c ∈ old, c ≠ ']') :
    Part000.matchPlaceholder (Part000.tokenChars qq old ++ ext) = some (qq, old, ext) := by
  have hqqE : qq.isEmpty = false := by
    cases qq with
    | nil => exact absurd rfl hqq
    | cons a b => rfl
  have holdE : old.isEmpty = false := by
    cases old with
    | nil => exact absurd rfl hold
    | cons a b => rfl
  have hnb' : ∀ x ∈ old, (fun c => decide (c ≠ ']')) x = true := by
    intro x hx
    simp [hnb x hx]
  have hlitn : Part000.litNick = ',' :: " Nickname: ".data := by decide
  have h1 : Part000.tokenChars qq old ++ ext =
      Part000.litUserId ++ (qq ++ (',' :: (" Nickname: ".data ++ (old ++ (']' :: ext))))) := by
    unfold Part000.tokenChars
    rw [hlitn]
    simp [List.append_assoc]
  have hlit2 : (',' :: (" Nickname: ".data ++ (old ++ (']' :: ext)))) =
      Part000.litNick ++ (old ++ (']' :: ext)) := by
    rw [hlitn]
    simp [List.cons_append]
  rw [h1]
  unfold Part000.matchPlaceholder
  rw [dropLit_append]
  simp only [Option.some_bind]
  rw [takeWhile_append_cons Char.isDigit qq ',' _ hdig (by decide),
    dropWhile_append_cons Char.isDigit qq ',' _ hdig (by decide)]
  rw [hlit2, dropLit_append]
  simp only [Option.some_bind]
  rw [takeWhile_append_cons _ old ']' _ hnb' (by decide),
    dropWhile_append_cons _ old ']' _ hnb' (by decide)]
  simp [hqqE, holdE]

theorem subFuel_nil (cb : List Char → List Char → List Char) (f : Nat) :
    Part000.subFuel cb f [] = [] := by
  cases f <;> rfl

theorem subFuel_cons (cb : List Char → List Char → List Char) (f : Nat) (c : Char)
    (cs : List Char) :
    Part000.subFuel cb (f + 1) (c :: cs) =
      match Part000.matchPlaceholder (c :: cs) with
      | some (d, n, r) => cb d n ++ Part000.subFuel cb f r
      | none => c :: Part000.subFuel cb f cs := rfl

theorem subFuel_cons_match (cb : List Char → List Char → List Char) (f : Nat)
    {c : Char} {cs d n r : List Char}
    (h : Part000.matchPlaceholder (c :: cs) = some (d, n, r)) :
    Part000.subFuel cb (f + 1) (c :: cs) = cb d n ++ Part000.subFuel cb f r := by
  rw [subFuel_cons, h]

theorem subFuel_congr (cb1 cb2 : List Char → List Char → List Char)
    (hcb : ∀ d n, cb1 d n = cb2 d n) :
    ∀ (f : Nat) (l : List Char), Part000.subFuel cb1 f l = Part000.subFuel cb2 f l := by
  intro f
  induction f with
  | zero => intro l; rfl
  | succ f ih =>
    intro l
    cases l with
    | nil => rfl
    | cons c cs =>
      rw [subFuel_cons, subFuel_cons]
      cases h : Part000.matchPlaceholder (c :: cs) with
      | none => simp [ih]
      | some t =>
        obtain ⟨d, n, r⟩ := t
        simp [hcb, ih]

theorem pyGet_mem {α : Type} {d : PyDict α} {k : String} {v : α}
    (h : pyGet d k = some v) : (k, v) ∈ d := by
  induction d with
  | nil => simp [pyGet] at h
  | cons kv rest ih =>
    obtain ⟨k0, w⟩ := kv
    simp only [pyGet] at h
    by_cases h0 : k0 = k
    · rw [if_pos h0] at h
      subst h0
      obtain rfl : w = v := Option.some.injEq w v |>.mp h
      exact List.mem_cons_self _ _
    · rw [if_neg h0] at h
      exact List.mem_cons_of_mem _ (ih h)

theorem callback_eq_amended (tbl : UserTable) (h : nickStringsOnly tbl = true)
    (d n : List Char) : Part000.replaceCallback tbl d n = amendedCallbackC3 tbl d n := by
  unfold Part000.replaceCallback amendedCallbackC3
  cases hg : pyGet tbl (String.mk d) with
  | none => rfl
  | some r =>
    have hr : (match pyGet r "nickname" with
        | some (.pint _) => false
        | _ => true) = true := by
      have hmem := pyGet_mem hg
      exact List.all_eq_true.mp h _ hmem
    cases hn : pyGet r "nickname" with
    | none =>
      by_cases he : ("" : String) = String.mk n <;>
        simp [pyGetD, hn, pyEqStr, pyTruthy, he]
    | some v =>
      cases v with
      | pint k => simp [hn] at hr
      | pstr s =>
        by_cases he : s = String.mk n
        · simp [pyGetD, hn, pyEqStr, pyValStr, he]
        · by_cases hs : s = ""
          · subst hs
            simp [pyGetD, hn, pyEqStr, pyValStr, pyTruthy, he]
          · simp [pyGetD, hn, pyEqStr, pyValStr, pyTruthy, he, hs]

/-- C3: corrected.  When a record exists but its stored nickname is the
empty string (or absent, defaulted to empty), the code keeps the matched
token, while the claim as stated would rewrite the nickname portion with
the (empty) stored value. -/
theorem counterexample_C3 :
    Part000.replace_nickname_in_context [("123", [("nickname", PyVal.pstr "")])]
        "[User ID: 123, Nickname: Bob]" = "[User ID: 123, Nickname: Bob]" ∧
    claimReplaceC3 [("123", [("nickname", PyVal.pstr "")])]
        "[User ID: 123, Nickname: Bob]" = "[User ID: 123, Nickname: ]" ∧
    Part000.replace_nickname_in_context [("123", [("nickname", PyVal.pstr "")])]
        "[User ID: 123, Nickname: Bob]" ≠
      claimReplaceC3 [("123", [("nickname", PyVal.pstr "")])]
        "[User ID: 123, Nickname: Bob]" := by decide

/-- C3 (amended): for tables whose stored nicknames are strings,
`replace_nickname_in_context` rewrites each placeholder token's nickname
portion to the stored nickname, leaving a matched token byte-for-byte
unchanged when the table has no record for its id, when the stored
nickname equals the token's nickname, or when the stored nickname is
absent or empty; all text outside matched tokens is unchanged. -/
theorem claim_C3 (tbl : UserTable) (text : String) (h : nickStringsOnly tbl = true) :
    Part000.replace_nickname_in_context tbl text = amendedReplaceC3 tbl text := by
  unfold Part000.replace_nickname_in_context amendedReplaceC3
  split
  · rfl
  · unfold Part000.pyReSub
    rw [subFuel_congr _ _ (callback_eq_amended tbl h) _ _]

theorem claim_C3_witness :
    nickStringsOnly [("123", [("nickname", PyVal.pstr "Alice")])] = true ∧
    Part000.replace_nickname_in_context [("123", [("nickname", PyVal.pstr "Alice")])]
        "hi [User ID: 123, Nickname: Bob] bye" =
      amendedReplaceC3 [("123", [("nickname", PyVal.pstr "Alice")])]
        "hi [User ID: 123, Nickname: Bob] bye" :=
  ⟨by decide,
   claim_C3 [("123", [("nickname", PyVal.pstr "Alice")])]
     "hi [User ID: 123, Nickname: Bob] bye" (by decide)⟩

/-- C9: confirmed.  Empty table or empty text returns the text unchanged,
and a matched token whose record has an absent or empty stored nickname is
left unchanged. -/
theorem claim_C9 :
    (∀ text : String, Part000.replace_nickname_in_context [] text = text) ∧
    (∀ tbl : UserTable, Part000.replace_nickname_in_context tbl "" = "") ∧
    (∀ (tbl : UserTable) (qq old : List Char) (r : PyRec),
        pyGet tbl (String.mk qq) = some r →
        pyGet r "nickname" = none ∨ pyGet r "nickname" = some (.pstr "") →
        qq ≠ [] → (∀ c ∈ qq, c.isDigit = true) →
        old ≠ [] → (∀ c ∈ old, c ≠ ']') →
        Part000.replace_nickname_in_context tbl (Part000.tokenStr qq old) =
          Part000.tokenStr qq old) := by
  refine ⟨?_, ?_, ?_⟩
  · intro text
    unfold Part000.replace_nickname_in_context
    rw [if_pos (Or.inl rfl)]
  · intro tbl
    unfold Part000.replace_nickname_in_context
    rw [if_pos (Or.inr rfl)]
  · intro tbl qq old r hg hnick hqq hdig hold hnb
    have htbl : tbl ≠ [] := by
      intro he
      subst he
      simp [pyGet] at hg
    have htok : Part000.tokenStr qq old ≠ "" := by
      intro he
      have hdata : (Part000.tokenStr qq old).data = [] := by rw [he]
      rw [show (Part000.tokenStr qq old).data = Part000.tokenChars qq old from rfl,
        tokenChars_cons] at hdata
      exact List.noConfusion hdata
    have hnv : pyGetD r "nickname" (.pstr "") = .pstr "" := by
      rcases hnick with hh | hh <;> simp [pyGetD, hh]
    have hne : pyEqStr (PyVal.pstr "") (String.mk old) = false := by
      simp only [pyEqStr, decide_eq_false_iff_not]
      intro he
      have hdd : ([] : List Char) = old := congrArg String.data he
      exact hold hdd.symm
    have hcb : Part000.replaceCallback tbl qq old = Part000.tokenChars qq old := by
      unfold Part000.replaceCallback
      simp only [hg, hnv, hne, Bool.false_eq_true, if_false, pyTruthy]
      simp
    unfold Part000.replace_nickname_in_context
    rw [if_neg (by push_neg; exact ⟨htbl, htok⟩)]
    rw [show (Part000.tokenStr qq old).data = Part000.tokenChars qq old from rfl]
    unfold Part000.pyReSub
    have hmatch : Part000.matchPlaceholder (Part000.tokenChars qq old) = some (qq, old, []) := by
      have hm := matchPlaceholder_token qq old [] hqq hdig hold hnb
      rwa [List.append_nil] at hm
    obtain ⟨c, cs, hcc⟩ : ∃ c cs, Part000.tokenChars qq old = c :: cs :=
      ⟨'[', _, tokenChars_cons qq old⟩
    rw [hcc] at hmatch
    rw [hcc]
    simp only [List.length_cons]
    rw [subFuel_cons_match _ _ hmatch, subFuel_nil, List.append_nil, hcb]
    rfl

example :
    load_user_info (.content (save_user_info
      [("123", [("nickname", .pstr "A\"l\nice"), ("timestamp", .pint 1700000000)]),
       ("456", [])]))
    = [("123", [("nickname", .pstr "A\"l\nice"), ("timestamp", .pint 1700000000)]),
       ("456", [])] := by decide

example :
    Part000.replace_nickname_in_context [("123", [("nickname", .pstr "Alice")])]
      "hi [User ID: 123, Nickname: Bob]!" = "hi [User ID: 123, Nickname: Alice]!" := by
  decide

example :
    Part000.replace_nickname_in_context [("123", [("nickname", .pstr "")])]
      "[User ID: 123, Nickname: Bob]" = "[User ID: 123, Nickname: Bob]" := by
  decide

example :
    Part000.replace_nickname_in_context [("999", [("nickname", .pstr "Alice")])]
      "[User ID: 123, Nickname: Bob]" = "[User ID: 123, Nickname: Bob]" := by
  decide

example : Part000.calculate_age "2000-01-01" 2024 6 1 = 24 := by decide

example : Part000.calculate_age "2000-02-01" 2024 2 1 = 24 := by decide

example : Part000.calculate_age "2000-02-01" 2024 1 31 = 23 := by decide

example : Part000.calculate_age "未知" 2024 6 1 = 0 := by decide

example : Part000.calculate_age "2000-1" 2024 6 1 = 0 := by decide

example : Part000.calculate_age "2000-a-1" 2024 6 1 = 0 := by decide

example : Part000.parse_birthday [("birthday_year", .pint 2000), ("birthday_month", .pint 1), ("birthday_day", .pint 1)] = "2000-1-1" := by decide

theorem calculate_age_eq (b : String) (cy cm cd : Int) :
    Part000.calculate_age b cy cm cd =
      if b = "未知" then 0
      else
        match birthdayTriple b with
        | some (y, m, d) => (cy - y) - (if cm < m ∨ (cm = m ∧ cd < d) then 1 else 0)
        | none => 0 := by
  unfold Part000.calculate_age birthdayTriple
  by_cases hb : b = "未知"
  · simp [hb]
  · simp only [if_neg hb]
    rcases hs : splitOnChar '-' b.data with _ | ⟨p0, _ | ⟨p1, _ | ⟨p2, _ | ⟨p3, tl⟩⟩⟩⟩ <;>
      simp only [hs] <;> try rfl
    rcases h0 : pyInt? p0 with _ | y <;> rcases h1 : pyInt? p1 with _ | m <;>
      rcases h2 : pyInt? p2 with _ | d <;> simp [h0, h1, h2]

theorem birthdayTriple_ne_unknown {b : String} {t : Int × Int × Int}
    (h : birthdayTriple b = some t) : b ≠ "未知" := by
  intro hb; subst hb
  have hu : birthdayTriple "未知" = none := by decide
  rw [hu] at h
  exact Option.noConfusion h

theorem calculate_age_of_triple (b : String) (y m d cy cm cd : Int)
    (h : birthdayTriple b = some (y, m, d)) :
    Part000.calculate_age b cy cm cd =
      (cy - y) - (if cm < m ∨ (cm = m ∧ cd < d) then 1 else 0) := by
  rw [calculate_age_eq, if_neg (birthdayTriple_ne_unknown h), h]

theorem calculate_age_of_triple_none (b : String) (cy cm cd : Int)
    (h : birthdayTriple b = none) :
    Part000.calculate_age b cy cm cd = 0 := by
  rw [calculate_age_eq, h]
  split <;> rfl

/-- C2: corrected.  The claim predicts a value smaller than 24 "on or
before" February 1, but on February 1 itself the code's strict tuple
comparison `(2, 1) < (2, 1)` is false, so the age is the full 24. -/
theorem counterexample_C2 :
    Part000.calculate_age "2000-02-01" 2024 2 1 = 24 ∧
    ¬ Part000.calculate_age "2000-02-01" 2024 2 1 < 24 := by decide

/-- C2 (amended): `calculate_age` on `"2000-01-01"` at current date
2024-06-01 returns 24; and for birthday `"2000-02-01"` against any current
(month, day) of 2024 it returns 24 exactly when the date is on or after
February 1, and 23 when the date is lexicographically before February 1. -/
theorem claim_C2 :
    Part000.calculate_age "2000-01-01" 2024 6 1 = 24 ∧
    ∀ cm cd : Int,
      Part000.calculate_age "2000-02-01" 2024 cm cd =
        if cm < 2 ∨ (cm = 2 ∧ cd < 1) then 23 else 24 := by
  refine ⟨by decide, fun cm cd => ?_⟩
  rw [calculate_age_of_triple "2000-02-01" 2000 2 1 2024 cm cd (by decide)]
  by_cases h : cm < 2 ∨ (cm = 2 ∧ cd < 1) <;> simp [h]

theorem not_agePart_of_prefix (pre s : String) (c : Char) (t : List Char)
    (hpre : pre.data = c :: t) (hc : c ≠ '年') : ¬ isAgePart (pre ++ s) := by
  rintro ⟨a, ha⟩
  rw [String.data_append, hpre] at ha
  have h2 : "年龄: ".data = '年' :: "龄: ".data := rfl
  rw [h2] at ha
  injection ha with h1 _
  exact hc h1

theorem mem_ite_nil_right {c : Prop} [Decidable c] {q : String} {l : List String}
    (h : q ∈ (if c then l else [])) : q ∈ l := by
  split at h
  · exact h
  · simp at h

/-- C1: confirmed.  An unknown-sentinel or malformed birthday gives age 0
and no age part in the formatted prompt; a birthday splitting into three
integer fields `(y, m, d)` gives `current_year - y`, minus one exactly when
the current `(month, day)` is lexicographically before `(m, d)`. -/
theorem claim_C1 :
    (∀ (b : String) (cy cm cd : Int),
        b = "未知" ∨ birthdayTriple b = none →
        Part000.calculate_age b cy cm cd = 0) ∧
    (∀ (info : PyRec) (is_group : Bool) (b : String) (cy cm cd : Int),
        pyGetD info "birthday" (.pstr "未知") = .pstr b →
        b = "未知" ∨ birthdayTriple b = none →
        ∀ p ∈ Part000.format_parts info is_group cy cm cd, ¬ isAgePart p) ∧
    (∀ (b : String) (y m d cy cm cd : Int),
        birthdayTriple b = some (y, m, d) →
        Part000.calculate_age b cy cm cd =
          (cy - y) - (if cm < m ∨ (cm = m ∧ cd < d) then 1 else 0)) := by
  refine ⟨?_, ?_, ?_⟩
  · intro b cy cm cd h
    rcases h with h | h
    · rw [calculate_age_eq, if_pos h]
    · exact calculate_age_of_triple_none b cy cm cd h
  · intro info is_group b cy cm cd hbd hbad p hp
    unfold Part000.format_parts at hp
    rw [hbd] at hp
    have hseg : (if PyVal.pstr b ≠ PyVal.pstr "未知" then
        (if Part000.calculate_age_val (.pstr b) cy cm cd > 0 then
           ["年龄: " ++ toString (Part000.calculate_age_val (.pstr b) cy cm cd) ++ "岁"]
         else [])
      else []) = [] := by
      rcases hbad with hb | hb
      · subst hb; simp
      · have h0 : Part000.calculate_age_val (.pstr b) cy cm cd = 0 := by
          show Part000.calculate_age b cy cm cd = 0
          exact calculate_age_of_triple_none b cy cm cd hb
        rw [h0]
        simp
    rw [hseg] at hp
    simp only [List.append_nil, List.nil_append, List.mem_append, List.mem_cons,
      List.mem_singleton, List.not_mem_nil, or_false, false_or] at hp
    rcases hp with (((h | h) | h) | h) | h
    · subst h; exact not_agePart_of_prefix _ _ '用' "户QQ号: ".data rfl (by decide)
    · subst h; exact not_agePart_of_prefix _ _ '昵' "称: ".data rfl (by decide)
    · have h3 := mem_ite_nil_right h
      simp only [List.mem_singleton] at h3
      subst h3; exact not_agePart_of_prefix _ _ '性' "别: ".data rfl (by decide)
    · subst h; exact not_agePart_of_prefix _ _ '生' "日: ".data rfl (by decide)
    · have hg := mem_ite_nil_right h
      rcases List.mem_append.mp hg with h2 | h2
      · have h3 := mem_ite_nil_right h2
        simp only [List.mem_singleton] at h3
        subst h3; exact not_agePart_of_prefix _ _ '群' "身份: ".data rfl (by decide)
      · have h3 := mem_ite_nil_right h2
        simp only [List.mem_singleton] at h3
        subst h3; exact not_agePart_of_prefix _ _ '群' "头衔: ".data rfl (by decide)
  · intro b y m d cy cm cd h
    exact calculate_age_of_triple b y m d cy cm cd h

theorem claim_C1_witness :
    (birthdayTriple "20a0-01-01" = none ∧
      Part000.calculate_age "20a0-01-01" 2024 6 1 = 0) ∧
    (pyGetD [("birthday", PyVal.pstr "20a0-01-01")] "birthday" (.pstr "未知") =
        .pstr "20a0-01-01" ∧
      ∀ p ∈ Part000.format_parts [("birthday", PyVal.pstr "20a0-01-01")] true 2024 6 1,
        ¬ isAgePart p) ∧
    (birthdayTriple "2000-01-01" = some (2000, 1, 1) ∧
      Part000.calculate_age "2000-01-01" 2024 6 1 =
        ((2024 : Int) - 2000) -
          (if (6 : Int) < 1 ∨ ((6 : Int) = 1 ∧ (1 : Int) < 1) then 1 else 0)) :=
  ⟨⟨by decide, claim_C1.1 "20a0-01-01" 2024 6 1 (Or.inr (by decide))⟩,
   ⟨by decide,
    claim_C1.2.1 [("birthday", PyVal.pstr "20a0-01-01")] true "20a0-01-01" 2024 6 1
      (by decide) (Or.inr (by decide))⟩,
   ⟨by decide, claim_C1.2.2 "2000-01-01" 2000 1 1 2024 6 1 (by decide)⟩⟩

theorem pyGet_dictSet_self {α : Type} (d : PyDict α) (k : String) (v : α) :
    pyGet (dictSet d k v) k = some v := by
  induction d with
  | nil => simp [dictSet, pyGet]
  | cons kv rest ih =>
    obtain ⟨k0, w⟩ := kv
    by_cases h0 : k0 = k <;> simp [dictSet, pyGet, h0, ih]

theorem pyGet_dictSet_ne {α : Type} (d : PyDict α) (k k' : String) (v : α)
    (hne : k' ≠ k) : pyGet (dictSet d k v) k' = pyGet d k' := by
  induction d with
  | nil =>
    simp only [dictSet, pyGet]
    rw [if_neg (fun hh => hne hh.symm)]
  | cons kv rest ih =>
    obtain ⟨k0, w⟩ := kv
    simp only [dictSet]
    by_cases h0 : k0 = k
    · rw [if_pos h0]
      simp only [pyGet]
      rw [if_neg (fun hh => hne (hh.symm.trans h0)), if_neg (fun hh => hne (hh.symm.trans h0))]
    · rw [if_neg h0]
      simp only [pyGet]
      by_cases h1 : k0 = k'
      · rw [if_pos h1, if_pos h1]
      · rw [if_neg h1, if_neg h1]
        exact ih

theorem hasKey_dictSet {α : Type} (d : PyDict α) (k k' : String) (v : α)
    (h : hasKey d k' = true) : hasKey (dictSet d k v) k' = true := by
  by_cases hkk : k' = k
  · subst hkk
    unfold hasKey
    rw [pyGet_dictSet_self]
    rfl
  · unfold hasKey at h ⊢
    rw [pyGet_dictSet_ne d k k' v hkk]
    exact h

theorem hasKey_applyOp (t : UserTable) (op : Part000.Op) (qq : String)
    (h : hasKey t qq = true) : hasKey (Part000.applyOp t op) qq = true := by
  cases op with
  | hook p q f =>
    simp only [Part000.applyOp, Part000.on_llm_request_hook]
    split
    · exact h
    · split
      · exact h
      · exact hasKey_dictSet _ _ _ _ h
  | editNickname q v =>
    simp only [Part000.applyOp, Part000.update_nickname]
    split
    · exact h
    · exact hasKey_dictSet _ _ _ _ h
  | editBirthday q v y =>
    simp only [Part000.applyOp, Part000.update_birthday]
    split
    · exact h
    · split
      · exact h
      · exact hasKey_dictSet _ _ _ _ h
  | editGender q v =>
    simp only [Part000.applyOp, Part000.update_gender]
    split
    · exact h
    · split
      · exact h
      · exact hasKey_dictSet _ _ _ _ h

/-- C6: confirmed.  Across any sequence of hook invocations and edit
commands, a user id present in the table stays present (no operation
deletes a record), and a hook call on the QQ platform leaves its sender's
id present — inserting the fetched record when the id was absent. -/
theorem claim_C6 :
    (∀ (ops : List Part000.Op) (t : UserTable) (qq : String),
        hasKey t qq = true → hasKey (Part000.applyOps t ops) qq = true) ∧
    (∀ (qq : String) (fetched : PyRec) (t : UserTable),
        hasKey (Part000.on_llm_request_hook "aiocqhttp" qq fetched t) qq = true) := by
  constructor
  · intro ops
    induction ops with
    | nil => intro t qq h; exact h
    | cons op rest ih =>
      intro t qq h
      exact ih _ _ (hasKey_applyOp t op qq h)
  · intro qq fetched t
    unfold Part000.on_llm_request_hook
    rw [if_neg (by simp)]
    by_cases hk : hasKey t qq = true
    · rw [if_pos hk]; exact hk
    · rw [if_neg hk]
      simp [hasKey, pyGet_dictSet_self]

theorem claim_C6_witness :
    hasKey [("7", ([("nickname", PyVal.pstr "甲")] : PyRec))] "7" = true ∧
    hasKey (Part000.applyOps [("7", [("nickname", PyVal.pstr "甲")])]
      [Part000.Op.editNickname "7" "乙", Part000.Op.hook "aiocqhttp" "8" []]) "7" = true ∧
    hasKey (Part000.on_llm_request_hook "aiocqhttp" "8" [] [("7", [])]) "8" = true :=
  ⟨by decide,
   claim_C6.1 [Part000.Op.editNickname "7" "乙", Part000.Op.hook "aiocqhttp" "8" []]
     [("7", [("nickname", PyVal.pstr "甲")])] "7" (by decide),
   claim_C6.2 "8" [] [("7", [])]⟩

/-- C5: confirmed.  `load_user_info` yields the empty table when the file
is absent, unreadable or unparseable; `parse_birthday` yields the sentinel
whenever any of the three fields is absent or falsy; `calculate_age`
yields 0 whenever one of the three split fields makes `int()` raise. -/
theorem claim_C5 :
    (∀ fs : FileState,
        fs = .absent ∨ fs = .readError ∨ (∃ s, fs = .content s ∧ parseTable s = none) →
        load_user_info fs = []) ∧
    (∀ si : PyRec,
        pyTruthyOpt (pyGet si "birthday_year") = false ∨
        pyTruthyOpt (pyGet si "birthday_month") = false ∨
        pyTruthyOpt (pyGet si "birthday_day") = false →
        Part000.parse_birthday si = "未知") ∧
    (∀ (b : String) (p0 p1 p2 : List Char) (cy cm cd : Int),
        splitOnChar '-' b.data = [p0, p1, p2] →
        pyInt? p0 = none ∨ pyInt? p1 = none ∨ pyInt? p2 = none →
        Part000.calculate_age b cy cm cd = 0) := by
  refine ⟨?_, ?_, ?_⟩
  · intro fs h
    rcases h with h | h | ⟨s, hs, hp⟩
    · rw [h]; rfl
    · rw [h]; rfl
    · rw [hs]; simp [load_user_info, hp]
  · intro si h
    unfold Part000.parse_birthday
    rcases hy : pyGet si "birthday_year" with _ | y <;>
      rcases hm : pyGet si "birthday_month" with _ | m <;>
        rcases hd : pyGet si "birthday_day" with _ | d <;>
          simp only [hy, hm, hd, pyTruthyOpt] at h ⊢ <;> try rfl
    rcases h with h | h | h <;> simp [h]
  · intro b p0 p1 p2 cy cm cd hs h
    have ht : birthdayTriple b = none := by
      unfold birthdayTriple
      rw [hs]
      rcases h0 : pyInt? p0 with _ | y <;> rcases h1 : pyInt? p1 with _ | m <;>
        rcases h2 : pyInt? p2 with _ | d <;> simp [h0, h1, h2] <;> simp_all
    exact calculate_age_of_triple_none b cy cm cd ht

theorem claim_C5_witness :
    (parseTable "oops" = none ∧ load_user_info (.content "oops") = []) ∧
    (pyTruthyOpt (pyGet [("birthday_year", PyVal.pint 0)] "birthday_year") = false ∧
      Part000.parse_birthday [("birthday_year", PyVal.pint 0)] = "未知") ∧
    (splitOnChar '-' "2000-xx-01".data = ["2000".data, "xx".data, "01".data] ∧
      pyInt? "xx".data = none ∧
      Part000.calculate_age "2000-xx-01" 2024 6 1 = 0) :=
  ⟨⟨by decide, claim_C5.1 (.content "oops") (Or.inr (Or.inr ⟨"oops", rfl, by decide⟩))⟩,
   ⟨by decide, claim_C5.2.1 [("birthday_year", PyVal.pint 0)] (Or.inl (by decide))⟩,
   ⟨by decide, by decide,
    claim_C5.2.2 "2000-xx-01" "2000".data "xx".data "01".data 2024 6 1 (by decide)
      (Or.inr (Or.inl (by decide)))⟩⟩

/-- C10: confirmed.  Each edit command leaves the persisted table unchanged
and yields an error reply when the sender's id is absent or (for birthday
and gender) validation rejects the value. -/
theorem claim_C10 :
    (∀ (qq new : String) (t : UserTable),
        hasKey t qq = false →
        (Part000.update_nickname qq new t).1 = t ∧
        ∃ msg, (Part000.update_nickname qq new t).2 = .err msg) ∧
    (∀ (qq new : String) (todayYear : Int) (t : UserTable),
        hasKey t qq = false ∨ Part000.birthdayValid todayYear new = false →
        (Part000.update_birthday qq new todayYear t).1 = t ∧
        ∃ msg, (Part000.update_birthday qq new todayYear t).2 = .err msg) ∧
    (∀ (qq new : String) (t : UserTable),
        hasKey t qq = false ∨ (new ≠ "男" ∧ new ≠ "女") →
        (Part000.update_gender qq new t).1 = t ∧
        ∃ msg, (Part000.update_gender qq new t).2 = .err msg) := by
  refine ⟨?_, ?_, ?_⟩
  · intro qq new t h
    unfold Part000.update_nickname
    rw [if_pos (by simp [h])]
    exact ⟨rfl, _, rfl⟩
  · intro qq new todayYear t h
    unfold Part000.update_birthday
    rcases h with h | h
    · rw [if_pos (by simp [h])]
      exact ⟨rfl, _, rfl⟩
    · by_cases hk : ¬ hasKey t qq = true
      · rw [if_pos hk]
        exact ⟨rfl, _, rfl⟩
      · rw [if_neg hk, if_pos (by simp [h])]
        exact ⟨rfl, _, rfl⟩
  · intro qq new t h
    unfold Part000.update_gender
    rcases h with h | h
    · rw [if_pos (by simp [h])]
      exact ⟨rfl, _, rfl⟩
    · by_cases hk : ¬ hasKey t qq = true
      · rw [if_pos hk]
        exact ⟨rfl, _, rfl⟩
      · rw [if_neg hk, if_pos (by simp [h])]
        exact ⟨rfl, _, rfl⟩

theorem claim_C10_witness :
    (hasKey ([] : UserTable) "7" = false ∧
      ((Part000.update_nickname "7" "乙" []).1 = [] ∧
        ∃ msg, (Part000.update_nickname "7" "乙" []).2 = .err msg)) ∧
    (Part000.birthdayValid 2026 "2000-13-01" = false ∧
      ((Part000.update_birthday "7" "2000-13-01" 2026 [("7", [])]).1 = [("7", [])] ∧
        ∃ msg, (Part000.update_birthday "7" "2000-13-01" 2026 [("7", [])]).2 = .err msg)) ∧
    (("x" ≠ "男" ∧ "x" ≠ "女") ∧
      ((Part000.update_gender "7" "x" [("7", [])]).1 = [("7", [])] ∧
        ∃ msg, (Part000.update_gender "7" "x" [("7", [])]).2 = .err msg)) :=
  ⟨⟨by decide, claim_C10.1 "7" "乙" [] (by decide)⟩,
   ⟨by decide, claim_C10.2.1 "7" "2000-13-01" 2026 [("7", [])] (Or.inr (by decide))⟩,
   ⟨by decide, claim_C10.2.2 "7" "x" [("7", [])] (Or.inr (by decide))⟩⟩

example : isValidIsoDate "2000-01-01" = true := by decide

example : isValidIsoDate "2000-02-29" = true := by decide

example : isValidIsoDate "1900-02-29" = false := by decide

example : isValidIsoDate "2023-02-31" = false := by decide

theorem birthdayValid_eq (todayYear : Int) (s : String) :
    Part000.birthdayValid todayYear s =
      match birthdayTriple s with
      | some (y, m, d) =>
        (1900 ≤ y && y ≤ todayYear) && (1 ≤ m && m ≤ 12) && (1 ≤ d && d ≤ 31)
      | none => false := by
  unfold Part000.birthdayValid birthdayTriple
  rcases hs : splitOnChar '-' s.data with _ | ⟨p0, _ | ⟨p1, _ | ⟨p2, _ | ⟨p3, tl⟩⟩⟩⟩ <;>
    simp only [hs] <;> try rfl
  rcases h0 : pyInt? p0 with _ | y <;> rcases h1 : pyInt? p1 with _ | m <;>
    rcases h2 : pyInt? p2 with _ | d <;> simp [h0, h1, h2]

/-- C7: corrected.  Stored birthdays need not be ISO `YYYY-MM-DD`:
`parse_birthday` joins the raw truthy fields without zero-padding, so
integer field 1 yields `"2000-1-1"`; and `update_birthday` accepts
`"2023-2-31"` (day 31 in February, unpadded), storing it verbatim — both
results are neither valid ISO calendar dates nor the sentinel. -/
theorem counterexample_C7 :
    (Part000.parse_birthday
        [("birthday_year", PyVal.pint 2000), ("birthday_month", PyVal.pint 1),
         ("birthday_day", PyVal.pint 1)] = "2000-1-1" ∧
      isValidIsoDate "2000-1-1" = false ∧ "2000-1-1" ≠ "未知") ∧
    ((Part000.update_birthday "7" "2023-2-31" 2026 [("7", [])]).1 =
        [("7", [("birthday", PyVal.pstr "2023-2-31")])] ∧
      isValidIsoDate "2023-2-31" = false ∧ "2023-2-31" ≠ "未知") := by decide

/-- C7 (amended): every stored birthday is either the sentinel or of the
weaker shapes the code actually guarantees: `parse_birthday` returns the
sentinel or the dash-join of the three truthy fields (no zero-padding or
calendar validity); `update_birthday` accepts exactly strings splitting
into three integer fields with `1900 ≤ y ≤ current year`, `1 ≤ m ≤ 12`,
`1 ≤ d ≤ 31`, and stores the accepted string verbatim. -/
theorem claim_C7 :
    (∀ si : PyRec,
        Part000.parse_birthday si = "未知" ∨
        ∃ y m d : PyVal,
          pyGet si "birthday_year" = some y ∧ pyGet si "birthday_month" = some m ∧
          pyGet si "birthday_day" = some d ∧
          pyTruthy y = true ∧ pyTruthy m = true ∧ pyTruthy d = true ∧
          Part000.parse_birthday si = pyValStr y ++ "-" ++ pyValStr m ++ "-" ++ pyValStr d) ∧
    (∀ (new : String) (todayYear : Int),
        Part000.birthdayValid todayYear new = true →
        ∃ y m d : Int, birthdayTriple new = some (y, m, d) ∧
          1900 ≤ y ∧ y ≤ todayYear ∧ 1 ≤ m ∧ m ≤ 12 ∧ 1 ≤ d ∧ d ≤ 31) ∧
    (∀ (qq new : String) (todayYear : Int) (t : UserTable),
        hasKey t qq = true → Part000.birthdayValid todayYear new = true →
        ∃ r, pyGet (Part000.update_birthday qq new todayYear t).1 qq = some r ∧
          pyGet r "birthday" = some (.pstr new)) := by
  refine ⟨?_, ?_, ?_⟩
  · intro si
    unfold Part000.parse_birthday
    rcases hy : pyGet si "birthday_year" with _ | y <;>
      rcases hm : pyGet si "birthday_month" with _ | m <;>
        rcases hd : pyGet si "birthday_day" with _ | d <;>
          simp only [hy, hm, hd] <;> try (left; trivial)
    by_cases ht : (pyTruthy y && pyTruthy m && pyTruthy d) = true
    · right
      have ht' := ht
      simp only [Bool.and_eq_true] at ht'
      exact ⟨y, m, d, rfl, rfl, rfl, ht'.1.1, ht'.1.2, ht'.2, by rw [if_pos ht]⟩
    · left
      rw [if_neg ht]
  · intro new todayYear h
    rw [birthdayValid_eq] at h
    rcases ht : birthdayTriple new with _ | ⟨y, m, d⟩ <;> rw [ht] at h
    · exact absurd h (by simp)
    · simp only [Bool.and_eq_true, decide_eq_true_eq] at h
      exact ⟨y, m, d, rfl, h.1.1.1, h.1.1.2, h.1.2.1, h.1.2.2, h.2.1, h.2.2⟩
  · intro qq new todayYear t hk hv
    unfold Part000.update_birthday
    rw [if_neg (by simp [hk]), if_neg (by simp [hv])]
    exact ⟨_, pyGet_dictSet_self _ _ _, pyGet_dictSet_self _ _ _⟩

theorem claim_C7_witness :
    (Part000.birthdayValid 2026 "1999-12-31" = true ∧
      ∃ y m d : Int, birthdayTriple "1999-12-31" = some (y, m, d) ∧
        1900 ≤ y ∧ y ≤ (2026 : Int) ∧ 1 ≤ m ∧ m ≤ 12 ∧ 1 ≤ d ∧ d ≤ 31) ∧
    (hasKey [("7", ([] : PyRec))] "7" = true ∧
      ∃ r, pyGet (Part000.update_birthday "7" "1999-12-31" 2026 [("7", [])]).1 "7" = some r ∧
        pyGet r "birthday" = some (.pstr "1999-12-31")) :=
  ⟨⟨by decide, claim_C7.2.1 "1999-12-31" 2026 (by decide)⟩,
   ⟨by decide, claim_C7.2.2 "7" "1999-12-31" 2026 [("7", [])] (by decide) (by decide)⟩⟩

/-- C4: confirmed.  The three shared helpers of the older variant
(`src/main.py`) and the newer variant (`src/unnamed/part_000`) are
extensionally equal — their sources are textually identical. -/
theorem claim_C4 :
    (∀ si : PyRec, MainPy.parse_birthday si = Part000.parse_birthday si) ∧
    (∀ (b : String) (cy cm cd : Int),
        MainPy.calculate_age b cy cm cd = Part000.calculate_age b cy cm cd) ∧
    (∀ g : String, MainPy.get_gender_text g = Part000.get_gender_text g) :=
  ⟨fun _ => rfl, fun _ _ _ _ => rfl, fun _ => rfl⟩

/-! ### Round-trip lemmas for the json printer and parser -/

theorem takeWhile_all (p : Char → Bool) (a : List Char) (h : ∀ x ∈ a, p x = true) :
    a.takeWhile p = a := by
  induction a with
  | nil => rfl
  | cons x xs ih =>
    have hx := h x (List.mem_cons_self x xs)
    simp only [List.takeWhile_cons, hx, if_true]
    rw [ih (fun y hy => h y (List.mem_cons_of_mem _ hy))]

theorem dropWhile_all (p : Char → Bool) (a : List Char) (h : ∀ x ∈ a, p x = true) :
    a.dropWhile p = [] := by
  induction a with
  | nil => rfl
  | cons x xs ih =>
    have hx := h x (List.mem_cons_self x xs)
    simp only [List.dropWhile_cons, hx, if_true]
    exact ih (fun y hy => h y (List.mem_cons_of_mem _ hy))

theorem skipWs_ws_append (ws l : List Char) (h : ∀ c ∈ ws, isJsonWs c = true) :
    skipWs (ws ++ l) = skipWs l := by
  induction ws with
  | nil => rfl
  | cons x xs ih =>
    have hx := h x (List.mem_cons_self x xs)
    simp only [List.cons_append, skipWs, List.dropWhile_cons, hx, if_true]
    exact ih (fun y hy => h y (List.mem_cons_of_mem _ hy))

theorem skipWs_cons_false (c : Char) (l : List Char) (h : isJsonWs c = false) :
    skipWs (c :: l) = c :: l := by
  simp [skipWs, List.dropWhile_cons, h]

theorem isJsonWs_of_digit {c : Char} (h : c.isDigit = true) : isJsonWs c = false := by
  have h1 : c ≠ ' ' := by rintro rfl; simp at h
  have h2 : c ≠ '\t' := by rintro rfl; simp at h
  have h3 : c ≠ '\n' := by rintro rfl; simp at h
  have h4 : c ≠ '\r' := by rintro rfl; simp at h
  simp [isJsonWs, h1, h2, h3, h4]

theorem parseDigitsAcc_append (acc : Nat) (l1 l2 : List Char) :
    parseDigitsAcc acc (l1 ++ l2) = parseDigitsAcc (parseDigitsAcc acc l1) l2 := by
  induction l1 generalizing acc with
  | nil => rfl
  | cons c cs ih =>
    show parseDigitsAcc (acc * 10 + digitVal c) (cs ++ l2) =
      parseDigitsAcc (parseDigitsAcc (acc * 10 + digitVal c) cs) l2
    exact ih (acc * 10 + digitVal c)

theorem ofNat48_isDigit (m : Nat) (hm : m < 10) : (Char.ofNat (48 + m)).isDigit = true := by
  interval_cases m <;> decide

theorem digitVal_ofNat48 (m : Nat) (hm : m < 10) : digitVal (Char.ofNat (48 + m)) = m := by
  interval_cases m <;> decide

theorem natDigsFuel_digits (f : Nat) : ∀ n, ∀ c ∈ natDigsFuel f n, c.isDigit = true := by
  induction f with
  | zero => intro n c hc; simp [natDigsFuel] at hc
  | succ f ih =>
    intro n c hc
    unfold natDigsFuel at hc
    by_cases hz : n = 0
    · simp [hz] at hc
    · rw [if_neg hz] at hc
      rcases List.mem_append.mp hc with h | h
      · exact ih _ c h
      · simp only [List.mem_singleton] at h
        subst h
        exact ofNat48_isDigit _ (Nat.mod_lt _ (by omega))

theorem parseDigitsAcc_acc (acc : Nat) (l : List Char) :
    parseDigitsAcc acc l = acc * 10 ^ l.length + parseDigitsAcc 0 l := by
  induction l generalizing acc with
  | nil =>
    have h1 : parseDigitsAcc acc ([] : List Char) = acc := rfl
    have h2 : parseDigitsAcc 0 ([] : List Char) = 0 := rfl
    rw [h1, h2]
    simp
  | cons c cs ih =>
    have h1 : parseDigitsAcc acc (c :: cs) = parseDigitsAcc (acc * 10 + digitVal c) cs := rfl
    have h2 : parseDigitsAcc 0 (c :: cs) = parseDigitsAcc (0 * 10 + digitVal c) cs := rfl
    rw [h1, h2, ih (acc * 10 + digitVal c), ih (0 * 10 + digitVal c), List.length_cons]
    ring

theorem parse_natDigsFuel (f : Nat) : ∀ n, n ≤ f → parseDigitsAcc 0 (natDigsFuel f n) = n := by
  induction f with
  | zero =>
    intro n hn
    have hz : n = 0 := by omega
    subst hz
    rfl
  | succ f ih =>
    intro n hn
    by_cases hz : n = 0
    · subst hz
      rfl
    · unfold natDigsFuel
      rw [if_neg hz, parseDigitsAcc_append]
      have h10 : n / 10 ≤ f := by
        have := Nat.div_lt_self (Nat.pos_of_ne_zero hz) (by norm_num : (1 : Nat) < 10)
        omega
      rw [ih _ h10]
      have h1 : parseDigitsAcc (n / 10) [Char.ofNat (48 + n % 10)] =
          (n / 10) * 10 + digitVal (Char.ofNat (48 + n % 10)) := rfl
      rw [h1, digitVal_ofNat48 _ (Nat.mod_lt _ (by omega))]
      omega

theorem encNat_digits (n : Nat) : ∀ c ∈ encNat n, c.isDigit = true := by
  unfold encNat
  by_cases hz : n = 0
  · simp only [hz, if_true]
    intro c hc
    simp only [List.mem_singleton] at hc
    subst hc
    decide
  · rw [if_neg hz]
    exact natDigsFuel_digits n n

theorem encNat_ne_nil (n : Nat) : encNat n ≠ [] := by
  unfold encNat
  by_cases hz : n = 0
  · simp [hz]
  · rw [if_neg hz]
    cases n with
    | zero => exact absurd rfl hz
    | succ m =>
      unfold natDigsFuel
      simp

theorem parse_encNat (n : Nat) : parseDigitsAcc 0 (encNat n) = n := by
  unfold encNat
  by_cases hz : n = 0
  · subst hz
    rfl
  · rw [if_neg hz]
    exact parse_natDigsFuel n n (le_refl n)

theorem parseNatTok_encNat (n : Nat) (rest : List Char) (hrest : numBoundary rest) :
    parseNatTok (encNat n ++ rest) = some (n, rest) := by
  have hdig := encNat_digits n
  have htake : (encNat n ++ rest).takeWhile Char.isDigit = encNat n := by
    cases hr : rest with
    | nil => rw [List.append_nil]; exact takeWhile_all _ _ hdig
    | cons c cs =>
      exact takeWhile_append_cons _ _ _ _ hdig (hrest c (by rw [hr]; rfl)).1
  have hdrop : (encNat n ++ rest).dropWhile Char.isDigit = rest := by
    cases hr : rest with
    | nil =>
      rw [List.append_nil]
      have h2 : (encNat n).dropWhile Char.isDigit = [] := dropWhile_all _ _ hdig
      rw [h2]
    | cons c cs =>
      exact dropWhile_append_cons _ _ _ _ hdig (hrest c (by rw [hr]; rfl)).1
  have hne : (encNat n).isEmpty = false := by
    cases h : encNat n with
    | nil => exact absurd h (encNat_ne_nil n)
    | cons a b => rfl
  unfold parseNatTok
  rw [htake, hdrop, hne]
  simp only [Bool.false_eq_true, if_false]
  rw [if_neg ?hb, parse_encNat]
  case hb =>
    rintro (h | h | h)
    · exact (hrest _ h).2.1 rfl
    · exact (hrest _ h).2.2.1 rfl
    · exact (hrest _ h).2.2.2 rfl

theorem parseIntTok_encInt (n : Int) (rest : List Char) (hrest : numBoundary rest) :
    parseIntTok (encInt n ++ rest) = some (n, rest) := by
  unfold encInt
  by_cases hneg : n < 0
  · rw [if_pos hneg, List.cons_append]
    show (if '-' = '-' then (parseNatTok (encNat (-n).toNat ++ rest)).map
        (fun p => (-(p.1 : Int), p.2))
      else (parseNatTok ('-' :: (encNat (-n).toNat ++ rest))).map
        (fun p => ((p.1 : Int), p.2))) = some (n, rest)
    rw [if_pos rfl, parseNatTok_encNat _ _ hrest]
    simp only [Option.map_some']
    have : -(((-n).toNat : Int)) = n := by omega
    rw [this]
  · rw [if_neg hneg]
    obtain ⟨c, cs, hc⟩ : ∃ c cs, encNat n.toNat = c :: cs := by
      cases h : encNat n.toNat with
      | nil => exact absurd h (encNat_ne_nil _)
      | cons a b => exact ⟨a, b, rfl⟩
    have hcd : c.isDigit = true := by
      have hh := encNat_digits n.toNat
      rw [hc] at hh
      exact hh c (List.mem_cons_self _ _)
    have hcm : c ≠ '-' := by
      intro he
      rw [he] at hcd
      exact absurd hcd (by decide)
    rw [hc, List.cons_append]
    show (if c = '-' then (parseNatTok (cs ++ rest)).map (fun p => (-(p.1 : Int), p.2))
      else (parseNatTok (c :: (cs ++ rest))).map (fun p => ((p.1 : Int), p.2))) = some (n, rest)
    rw [if_neg hcm, ← List.cons_append, ← hc, parseNatTok_encNat _ _ hrest]
    simp only [Option.map_some']
    have : ((n.toNat : Int)) = n := by omega
    rw [this]

theorem hexVal?_hexDigitChar (m : Nat) (hm : m < 16) : hexVal? (hexDigitChar m) = some m := by
  interval_cases m <;> decide

theorem escChar_parse (c : Char) (l : List Char) :
    parseStrBody (escChar c ++ l) = (parseStrBody l).map (fun p => (c :: p.1, p.2)) := by
  unfold escChar
  by_cases h1 : c = '"'
  · subst h1
    conv_lhs => unfold parseStrBody
    simp
  rw [if_neg h1]
  by_cases h2 : c = '\\'
  · subst h2
    conv_lhs => unfold parseStrBody
    simp
  rw [if_neg h2]
  by_cases h3 : c = '\n'
  · subst h3
    conv_lhs => unfold parseStrBody
    simp
  rw [if_neg h3]
  by_cases h4 : c = '\t'
  · subst h4
    conv_lhs => unfold parseStrBody
    simp
  rw [if_neg h4]
  by_cases h5 : c = '\r'
  · subst h5
    conv_lhs => unfold parseStrBody
    simp
  rw [if_neg h5]
  by_cases h6 : c = '\x08'
  · subst h6
    conv_lhs => unfold parseStrBody
    simp
  rw [if_neg h6]
  by_cases h7 : c = '\x0c'
  · subst h7
    conv_lhs => unfold parseStrBody
    simp
  rw [if_neg h7]
  by_cases h8 : c.toNat < 32
  · rw [if_pos h8]
    have e0 : hexVal? '0' = some 0 := rfl
    have e1 : hexVal? (hexDigitChar (c.toNat / 16)) = some (c.toNat / 16) :=
      hexVal?_hexDigitChar _ (by omega)
    have e2 : hexVal? (hexDigitChar (c.toNat % 16)) = some (c.toNat % 16) :=
      hexVal?_hexDigitChar _ (Nat.mod_lt _ (by norm_num))
    show parseStrBody ('\\' :: 'u' :: '0' :: '0' :: hexDigitChar (c.toNat / 16) ::
        hexDigitChar (c.toNat % 16) :: l) = _
    conv_lhs => unfold parseStrBody
    simp [e0, e1, e2]
    have hn : c.toNat / 16 * 16 + c.toNat % 16 = c.toNat := by omega
    rw [hn, if_pos (Or.inl (by omega : c.toNat < 55296)), Char.ofNat_toNat]
  · rw [if_neg h8]
    show parseStrBody (c :: l) = _
    conv_lhs => unfold parseStrBody
    simp [h1, h2, h8]

theorem parseStrBody_escBody (s rest : List Char) :
    parseStrBody (escBody s ++ '"' :: rest) = some (s, rest) := by
  induction s with
  | nil =>
    show parseStrBody ('"' :: rest) = some ([], rest)
    unfold parseStrBody
    rw [if_pos rfl]
  | cons c cs ih =>
    show parseStrBody ((escChar c ++ escBody cs) ++ '"' :: rest) = _
    rw [List.append_assoc, escChar_parse, ih]
    rfl

theorem encNat_exists_cons (n : Nat) :
    ∃ c cs, encNat n = c :: cs ∧ c.isDigit = true := by
  cases h : encNat n with
  | nil => exact absurd h (encNat_ne_nil n)
  | cons a b =>
    refine ⟨a, b, rfl, ?_⟩
    have hh := encNat_digits n
    rw [h] at hh
    exact hh a (List.mem_cons_self _ _)

theorem encVal_exists_cons (v : PyVal) :
    ∃ c cs, encVal v = c :: cs ∧ isJsonWs c = false ∧ c ≠ '}' ∧ c ≠ ',' := by
  cases v with
  | pstr s => exact ⟨'"', _, rfl, by decide, by decide, by decide⟩
  | pint n =>
    show ∃ c cs, encInt n = c :: cs ∧ _
    unfold encInt
    by_cases hneg : n < 0
    · rw [if_pos hneg]
      exact ⟨'-', _, rfl, by decide, by decide, by decide⟩
    · rw [if_neg hneg]
      obtain ⟨c, cs, hc, hd⟩ := encNat_exists_cons n.toNat
      refine ⟨c, cs, hc, isJsonWs_of_digit hd, ?_, ?_⟩
      · intro he; rw [he] at hd; exact absurd hd (by decide)
      · intro he; rw [he] at hd; exact absurd hd (by decide)

theorem skipWs_encVal (v : PyVal) (t : List Char) :
    skipWs (encVal v ++ t) = encVal v ++ t := by
  obtain ⟨c, cs, hc, hws, _, _⟩ := encVal_exists_cons v
  rw [hc, List.cons_append, skipWs_cons_false _ _ hws]

theorem parseVal_encVal (v : PyVal) (rest : List Char) (hrest : numBoundary rest) :
    parseVal (encVal v ++ rest) = some (v, rest) := by
  cases v with
  | pstr s =>
    show parseVal (('"' :: (escBody s.data ++ ['"'])) ++ rest) = _
    rw [List.cons_append, List.append_assoc]
    have hstep : parseVal ('"' :: (escBody s.data ++ (['"'] ++ rest))) =
        (parseStrBody (escBody s.data ++ (['"'] ++ rest))).map
          (fun p => (PyVal.pstr (String.mk p.1), p.2)) := rfl
    rw [hstep]
    rw [show (['"'] ++ rest : List Char) = '"' :: rest from rfl, parseStrBody_escBody]
    rfl
  | pint n =>
    obtain ⟨c, cs, hc, hws, hbrace, hcomma⟩ := encVal_exists_cons (PyVal.pint n)
    rw [show encVal (PyVal.pint n) = encInt n from rfl] at hc
    have hq : c ≠ '"' := by
      intro he
      subst he
      unfold encInt at hc
      by_cases hneg : n < 0
      · rw [if_pos hneg] at hc
        have h0 : '-' = '"' := (List.cons.injEq _ _ _ _ |>.mp hc).1
        exact absurd h0 (by decide)
      · rw [if_neg hneg] at hc
        have hmem : ('"' : Char) ∈ encNat n.toNat := by
          rw [hc]
          exact List.mem_cons_self _ _
        have hd := encNat_digits n.toNat _ hmem
        exact absurd hd (by decide)
    show parseVal (encInt n ++ rest) = _
    rw [hc, List.cons_append]
    have hstep : parseVal (c :: (cs ++ rest)) =
        (if c = '"' then
          (parseStrBody (cs ++ rest)).map (fun p => (PyVal.pstr (String.mk p.1), p.2))
        else (parseIntTok (c :: (cs ++ rest))).map (fun p => (PyVal.pint p.1, p.2))) := rfl
    rw [hstep, if_neg hq, ← List.cons_append, ← hc, parseIntTok_encInt n rest hrest]
    rfl

theorem parseRecEntries_kv (f : Nat) (lead : List Char) (k : String) (v : PyVal)
    (tail : List Char) (hlead : ∀ c ∈ lead, isJsonWs c = true) (htail : numBoundary tail) :
    parseRecEntries (f + 1) (lead ++ ((encStr k ++ ':' :: ' ' :: encVal v) ++ tail)) =
      (match skipWs tail with
       | [] => none
       | c3 :: r5 =>
         if c3 = ',' then (parseRecEntries f r5).map (fun p => ((k, v) :: p.1, p.2))
         else if c3 = '}' then some ([(k, v)], r5)
         else none) := by
  have hin : lead ++ ((encStr k ++ ':' :: ' ' :: encVal v) ++ tail) =
      lead ++ ('"' :: (escBody k.data ++ ('"' :: (':' :: (' ' :: (encVal v ++ tail)))))) := by
    show lead ++ ((('"' :: (escBody k.data ++ ['"'])) ++ (':' :: ' ' :: encVal v)) ++ tail) = _
    simp [List.append_assoc]
  rw [hin]
  conv_lhs => unfold parseRecEntries
  rw [skipWs_ws_append lead _ hlead, skipWs_cons_false '"' _ (by decide)]
  simp only [reduceIte, parseStrBody_escBody]
  rw [skipWs_cons_false ':' _ (by decide)]
  simp only [reduceIte]
  rw [show skipWs (' ' :: (encVal v ++ tail)) = skipWs (encVal v ++ tail) from rfl,
    skipWs_encVal, parseVal_encVal v tail htail]

theorem numBoundary_cons {c : Char} (h1 : c.isDigit = false) (h2 : c ≠ '.') (h3 : c ≠ 'e')
    (h4 : c ≠ 'E') (l : List Char) : numBoundary (c :: l) := by
  intro c0 hc0
  rw [List.head?_cons] at hc0
  injection hc0 with h
  subst h
  exact ⟨h1, h2, h3, h4⟩

theorem parseRecEntries_ws (f : Nat) (ws l : List Char) (h : ∀ c ∈ ws, isJsonWs c = true) :
    parseRecEntries (f + 1) (ws ++ l) = parseRecEntries (f + 1) l := by
  conv_lhs => unfold parseRecEntries
  conv_rhs => unfold parseRecEntries
  rw [skipWs_ws_append ws l h]

theorem parseRecEntries_print (items : List (String × PyVal)) :
    ∀ (f : Nat) (ind cw after : List Char), items ≠ [] → items.length ≤ f →
      (∀ c ∈ ind, isJsonWs c = true) → (∀ c ∈ cw, isJsonWs c = true) →
      parseRecEntries f
        (sepByCommaNl ind (items.map (fun kv => encStr kv.1 ++ ':' :: ' ' :: encVal kv.2))
          ++ ('\n' :: (cw ++ ('}' :: after)))) =
        some (items, after) := by
  induction items with
  | nil => intro f ind cw after hne; exact absurd rfl hne
  | cons x xs ih =>
    intro f ind cw after hne hf hind hcw
    obtain ⟨f0, rfl⟩ : ∃ f0, f = f0 + 1 := by
      cases f with
      | zero => simp at hf
      | succ f0 => exact ⟨f0, rfl⟩
    cases xs with
    | nil =>
      show parseRecEntries (f0 + 1)
        ((ind ++ (encStr x.1 ++ ':' :: ' ' :: encVal x.2)) ++ ('\n' :: (cw ++ ('}' :: after)))) =
        some ([x], after)
      rw [List.append_assoc]
      rw [parseRecEntries_kv f0 ind x.1 x.2 _ hind
        (numBoundary_cons (by decide) (by decide) (by decide) (by decide) _)]
      rw [show ('\n' :: (cw ++ ('}' :: after))) = (('\n' :: cw) ++ ('}' :: after)) from rfl]
      rw [skipWs_ws_append _ _ (by
        intro c hc
        rcases List.mem_cons.mp hc with h | h
        · subst h; decide
        · exact hcw c h)]
      rw [skipWs_cons_false '}' _ (by decide)]
      simp
    | cons y t =>
      have hin : (ind ++ (encStr x.1 ++ ':' :: ' ' :: encVal x.2) ++
            (',' :: '\n' ::
              sepByCommaNl ind ((y :: t).map (fun kv => encStr kv.1 ++ ':' :: ' ' :: encVal kv.2))))
            ++ ('\n' :: (cw ++ ('}' :: after))) =
          ind ++ ((encStr x.1 ++ ':' :: ' ' :: encVal x.2) ++
            (',' :: ('\n' ::
              (sepByCommaNl ind ((y :: t).map (fun kv => encStr kv.1 ++ ':' :: ' ' :: encVal kv.2))
                ++ ('\n' :: (cw ++ ('}' :: after))))))) := by
        simp [List.append_assoc]
      show parseRecEntries (f0 + 1)
        ((ind ++ (encStr x.1 ++ ':' :: ' ' :: encVal x.2) ++
          (',' :: '\n' ::
            sepByCommaNl ind ((y :: t).map (fun kv => encStr kv.1 ++ ':' :: ' ' :: encVal kv.2))))
          ++ ('\n' :: (cw ++ ('}' :: after)))) = some (x :: y :: t, after)
      rw [hin]
      rw [parseRecEntries_kv f0 ind x.1 x.2 _ hind
        (numBoundary_cons (by decide) (by decide) (by decide) (by decide) _)]
      rw [skipWs_cons_false ',' _ (by decide)]
      simp only [reduceIte]
      obtain ⟨f1, rfl⟩ : ∃ f1, f0 = f1 + 1 := by
        cases f0 with
        | zero =>
          exfalso
          simp only [List.length_cons] at hf
          omega
        | succ f1 => exact ⟨f1, rfl⟩
      rw [show ('\n' ::
          (sepByCommaNl ind ((y :: t).map (fun kv => encStr kv.1 ++ ':' :: ' ' :: encVal kv.2))
            ++ ('\n' :: (cw ++ ('}' :: after))))) =
          ['\n'] ++
          (sepByCommaNl ind ((y :: t).map (fun kv => encStr kv.1 ++ ':' :: ' ' :: encVal kv.2))
            ++ ('\n' :: (cw ++ ('}' :: after)))) from rfl]
      rw [parseRecEntries_ws f1 ['\n'] _ (by intro c hc; simp at hc; subst hc; decide)]
      rw [ih (f1 + 1) ind cw after (by simp) (by simp only [List.length_cons] at hf ⊢; omega) hind hcw]
      rfl

theorem sepByCommaNl_cons_shape (ind x : List Char) (xs : List (List Char)) :
    ∃ s, sepByCommaNl ind (x :: xs) = ind ++ (x ++ s) := by
  cases xs with
  | nil => exact ⟨[], by simp [sepByCommaNl]⟩
  | cons y t =>
    exact ⟨',' :: '\n' :: sepByCommaNl ind (y :: t), by simp [sepByCommaNl, List.append_assoc]⟩

theorem sepByCommaNl_length_ge (ind : List Char) (items : List (List Char))
    (h : ∀ x ∈ items, x ≠ []) : items.length ≤ (sepByCommaNl ind items).length := by
  induction items with
  | nil => simp [sepByCommaNl]
  | cons x xs ih =>
    cases xs with
    | nil =>
      have hx : 0 < x.length :=
        List.length_pos.mpr (h x (List.mem_cons_self _ _))
      simp only [sepByCommaNl, List.length_cons, List.length_append, List.length_nil]
      omega
    | cons y t =>
      have hx : 0 < x.length :=
        List.length_pos.mpr (h x (List.mem_cons_self _ _))
      have ih2 := ih (fun z hz => h z (List.mem_cons_of_mem _ hz))
      simp only [sepByCommaNl, List.length_cons, List.length_append] at ih2 ⊢
      omega

theorem parseRecRaw_encRec (r : PyRec) (tail : List Char) :
    parseRecRaw (encRec r ++ tail) = some (r, tail) := by
  cases r with
  | nil =>
    show parseRecRaw ('{' :: ('}' :: tail)) = some ([], tail)
    conv_lhs => unfold parseRecRaw
    rw [skipWs_cons_false '{' _ (by decide)]
    simp [skipWs_cons_false '}' _ (by decide)]
  | cons kv rest =>
    have hmap : (kv :: rest).map (fun p => encStr p.1 ++ ':' :: ' ' :: encVal p.2) =
        (encStr kv.1 ++ ':' :: ' ' :: encVal kv.2) ::
          rest.map (fun p => encStr p.1 ++ ':' :: ' ' :: encVal p.2) := rfl
    obtain ⟨s, hs⟩ := sepByCommaNl_cons_shape "    ".data
      (encStr kv.1 ++ ':' :: ' ' :: encVal kv.2)
      (rest.map (fun p => encStr p.1 ++ ':' :: ' ' :: encVal p.2))
    show parseRecRaw ('{' :: (('\n' ::
        (sepByCommaNl "    ".data
          ((kv :: rest).map (fun p => encStr p.1 ++ ':' :: ' ' :: encVal p.2))
          ++ ('\n' :: [' ', ' ', '}']))) ++ tail)) = _
    conv_lhs => unfold parseRecRaw
    rw [skipWs_cons_false '{' _ (by decide)]
    simp only [reduceIte]
    have hskip : skipWs (('\n' ::
        (sepByCommaNl "    ".data
          ((kv :: rest).map (fun p => encStr p.1 ++ ':' :: ' ' :: encVal p.2))
          ++ ('\n' :: [' ', ' ', '}']))) ++ tail) =
        '"' :: ((((escBody kv.1.data ++ ['"']) ++ ':' :: ' ' :: encVal kv.2 ++ s)
          ++ ('\n' :: [' ', ' ', '}'])) ++ tail) := by
      have h1 : (('\n' ::
          (sepByCommaNl "    ".data
            ((kv :: rest).map (fun p => encStr p.1 ++ ':' :: ' ' :: encVal p.2))
            ++ ('\n' :: [' ', ' ', '}']))) ++ tail) =
          ('\n' :: "    ".data) ++
            ('"' :: ((((escBody kv.1.data ++ ['"']) ++ ':' :: ' ' :: encVal kv.2 ++ s)
              ++ ('\n' :: [' ', ' ', '}'])) ++ tail)) := by
        rw [hmap, hs]
        show ('\n' ::
            ("    ".data ++ ((('"' :: (escBody kv.1.data ++ ['"'])) ++ ':' :: ' ' :: encVal kv.2
              ++ s)) ++ ('\n' :: [' ', ' ', '}']))) ++ tail = _
        simp [List.append_assoc]
      rw [h1, skipWs_ws_append _ _ (by decide), skipWs_cons_false '"' _ (by decide)]
    rw [hskip]
    simp only [reduceIte]
    rw [show (('\n' ::
        (sepByCommaNl "    ".data
          ((kv :: rest).map (fun p => encStr p.1 ++ ':' :: ' ' :: encVal p.2))
          ++ ('\n' :: [' ', ' ', '}']))) ++ tail) =
        ['\n'] ++
        ((sepByCommaNl "    ".data
          ((kv :: rest).map (fun p => encStr p.1 ++ ':' :: ' ' :: encVal p.2))
          ++ ('\n' :: [' ', ' ', '}'])) ++ tail) from rfl]
    rw [parseRecEntries_ws _ _ _ (by decide)]
    rw [show ((sepByCommaNl "    ".data
          ((kv :: rest).map (fun p => encStr p.1 ++ ':' :: ' ' :: encVal p.2))
          ++ ('\n' :: [' ', ' ', '}'])) ++ tail) =
        (sepByCommaNl "    ".data
          ((kv :: rest).map (fun p => encStr p.1 ++ ':' :: ' ' :: encVal p.2))
          ++ ('\n' :: ([' ', ' '] ++ ('}' :: tail)))) from by simp [List.append_assoc]]
    rw [parseRecEntries_print (kv :: rest) _ "    ".data [' ', ' '] tail (by simp)
      ?_ (by decide) (by decide)]
    rw [if_neg (show ¬('"' = '}') from by decide)]
    have hlen := sepByCommaNl_length_ge "    ".data
      ((kv :: rest).map (fun p => encStr p.1 ++ ':' :: ' ' :: encVal p.2))
      (by
        intro x hx
        obtain ⟨p, hp, rfl⟩ := List.mem_map.mp hx
        show encStr p.1 ++ ':' :: ' ' :: encVal p.2 ≠ []
        simp [encStr])
    rw [List.length_map] at hlen
    refine le_trans hlen ?_
    simp only [List.length_append, List.length_cons]
    omega

theorem parseRecRaw_ws (ws l : List Char) (h : ∀ c ∈ ws, isJsonWs c = true) :
    parseRecRaw (ws ++ l) = parseRecRaw l := by
  conv_lhs => unfold parseRecRaw
  conv_rhs => unfold parseRecRaw
  rw [skipWs_ws_append ws l h]

theorem parseTableEntries_ws (f : Nat) (ws l : List Char) (h : ∀ c ∈ ws, isJsonWs c = true) :
    parseTableEntries (f + 1) (ws ++ l) = parseTableEntries (f + 1) l := by
  conv_lhs => unfold parseTableEntries
  conv_rhs => unfold parseTableEntries
  rw [skipWs_ws_append ws l h]

theorem parseTableEntries_kv (f : Nat) (lead : List Char) (k : String) (v : PyRec)
    (tail : List Char) (hlead : ∀ c ∈ lead, isJsonWs c = true) :
    parseTableEntries (f + 1) (lead ++ ((encStr k ++ ':' :: ' ' :: encRec v) ++ tail)) =
      (match skipWs tail with
       | [] => none
       | c3 :: r5 =>
         if c3 = ',' then (parseTableEntries f r5).map (fun p => ((k, v) :: p.1, p.2))
         else if c3 = '}' then some ([(k, v)], r5)
         else none) := by
  have hin : lead ++ ((encStr k ++ ':' :: ' ' :: encRec v) ++ tail) =
      lead ++ ('"' :: (escBody k.data ++ ('"' :: (':' :: (' ' :: (encRec v ++ tail)))))) := by
    show lead ++ ((('"' :: (escBody k.data ++ ['"'])) ++ (':' :: ' ' :: encRec v)) ++ tail) = _
    simp [List.append_assoc]
  rw [hin]
  conv_lhs => unfold parseTableEntries
  rw [skipWs_ws_append lead _ hlead, skipWs_cons_false '"' _ (by decide)]
  simp only [reduceIte, parseStrBody_escBody]
  rw [skipWs_cons_false ':' _ (by decide)]
  simp only [reduceIte]
  rw [show (' ' :: (encRec v ++ tail)) = [' '] ++ (encRec v ++ tail) from rfl,
    parseRecRaw_ws [' '] _ (by decide), parseRecRaw_encRec v tail]

theorem parseTableEntries_print (items : List (String × PyRec)) :
    ∀ (f : Nat) (ind cw after : List Char), items ≠ [] → items.length ≤ f →
      (∀ c ∈ ind, isJsonWs c = true) → (∀ c ∈ cw, isJsonWs c = true) →
      parseTableEntries f
        (sepByCommaNl ind (items.map (fun kv => encStr kv.1 ++ ':' :: ' ' :: encRec kv.2))
          ++ ('\n' :: (cw ++ ('}' :: after)))) =
        some (items, after) := by
  induction items with
  | nil => intro f ind cw after hne; exact absurd rfl hne
  | cons x xs ih =>
    intro f ind cw after hne hf hind hcw
    obtain ⟨f0, rfl⟩ : ∃ f0, f = f0 + 1 := by
      cases f with
      | zero => simp at hf
      | succ f0 => exact ⟨f0, rfl⟩
    cases xs with
    | nil =>
      show parseTableEntries (f0 + 1)
        ((ind ++ (encStr x.1 ++ ':' :: ' ' :: encRec x.2)) ++ ('\n' :: (cw ++ ('}' :: after)))) =
        some ([x], after)
      rw [List.append_assoc]
      rw [parseTableEntries_kv f0 ind x.1 x.2 _ hind]
      rw [show ('\n' :: (cw ++ ('}' :: after))) = (('\n' :: cw) ++ ('}' :: after)) from rfl]
      rw [skipWs_ws_append _ _ (by
        intro c hc
        rcases List.mem_cons.mp hc with h | h
        · subst h; decide
        · exact hcw c h)]
      rw [skipWs_cons_false '}' _ (by decide)]
      simp
    | cons y t =>
      have hin : (ind ++ (encStr x.1 ++ ':' :: ' ' :: encRec x.2) ++
            (',' :: '\n' ::
              sepByCommaNl ind ((y :: t).map (fun kv => encStr kv.1 ++ ':' :: ' ' :: encRec kv.2))))
            ++ ('\n' :: (cw ++ ('}' :: after))) =
          ind ++ ((encStr x.1 ++ ':' :: ' ' :: encRec x.2) ++
            (',' :: ('\n' ::
              (sepByCommaNl ind ((y :: t).map (fun kv => encStr kv.1 ++ ':' :: ' ' :: encRec kv.2))
                ++ ('\n' :: (cw ++ ('}' :: after))))))) := by
        simp [List.append_assoc]
      show parseTableEntries (f0 + 1)
        ((ind ++ (encStr x.1 ++ ':' :: ' ' :: encRec x.2) ++
          (',' :: '\n' ::
            sepByCommaNl ind ((y :: t).map (fun kv => encStr kv.1 ++ ':' :: ' ' :: encRec kv.2))))
          ++ ('\n' :: (cw ++ ('}' :: after)))) = some (x :: y :: t, after)
      rw [hin]
      rw [parseTableEntries_kv f0 ind x.1 x.2 _ hind]
      rw [skipWs_cons_false ',' _ (by decide)]
      simp only [reduceIte]
      obtain ⟨f1, rfl⟩ : ∃ f1, f0 = f1 + 1 := by
        cases f0 with
        | zero =>
          exfalso
          simp only [List.length_cons] at hf
          omega
        | succ f1 => exact ⟨f1, rfl⟩
      rw [show ('\n' ::
          (sepByCommaNl ind ((y :: t).map (fun kv => encStr kv.1 ++ ':' :: ' ' :: encRec kv.2))
            ++ ('\n' :: (cw ++ ('}' :: after))))) =
          ['\n'] ++
          (sepByCommaNl ind ((y :: t).map (fun kv => encStr kv.1 ++ ':' :: ' ' :: encRec kv.2))
            ++ ('\n' :: (cw ++ ('}' :: after)))) from rfl]
      rw [parseTableEntries_ws f1 ['\n'] _ (by intro c hc; simp at hc; subst hc; decide)]
      rw [ih (f1 + 1) ind cw after (by simp) (by simp only [List.length_cons] at hf ⊢; omega)
        hind hcw]
      rfl

theorem dictSet_append_not_mem {α : Type} (d : PyDict α) (k : String) (v : α)
    (h : ¬ k ∈ pyKeys d) : dictSet d k v = d ++ [(k, v)] := by
  induction d with
  | nil => rfl
  | cons kv rest ih =>
    obtain ⟨k0, w⟩ := kv
    have hk0 : k0 ≠ k := by
      intro he
      exact h (by rw [← he]; exact List.mem_cons_self _ _)
    show (if k0 = k then (k0, v) :: rest else (k0, w) :: dictSet rest k v) = _
    rw [if_neg hk0, ih (fun hm => h (List.mem_cons_of_mem _ hm))]
    rfl

theorem foldl_dictSet_append {α : Type} (ps : PyDict α) :
    ∀ d : PyDict α, (pyKeys (d ++ ps)).Nodup →
      ps.foldl (fun d kv => dictSet d kv.1 kv.2) d = d ++ ps := by
  induction ps with
  | nil => intro d h; simp
  | cons kv rest ih =>
    intro d h
    obtain ⟨k, v⟩ := kv
    have hkeys : pyKeys (d ++ (k, v) :: rest) = pyKeys d ++ (k :: pyKeys rest) := by
      simp [pyKeys]
    rw [hkeys] at h
    have hk : ¬ k ∈ pyKeys d := by
      intro hm
      rcases List.nodup_append.mp h with ⟨_, _, hdisj⟩
      exact hdisj hm (List.mem_cons_self _ _)
    show rest.foldl (fun d kv => dictSet d kv.1 kv.2) (dictSet d k v) = _
    rw [dictSet_append_not_mem d k v hk]
    have h2 : (pyKeys ((d ++ [(k, v)]) ++ rest)).Nodup := by
      rw [List.append_assoc]
      have hkeys2 : pyKeys (d ++ ([(k, v)] ++ rest)) = pyKeys d ++ (k :: pyKeys rest) := by
        simp [pyKeys]
      rw [hkeys2]
      exact h
    rw [ih (d ++ [(k, v)]) h2]
    simp [List.append_assoc]

theorem pyDictOfPairs_nodup {α : Type} (ps : PyDict α) (h : (pyKeys ps).Nodup) :
    pyDictOfPairs ps = ps := by
  unfold pyDictOfPairs
  have hh := foldl_dictSet_append ps [] (by simpa using h)
  simpa using hh

theorem table_collapse (t : UserTable) (houter : (pyKeys t).Nodup)
    (hinner : ∀ kv ∈ t, (pyKeys kv.2).Nodup) :
    pyDictOfPairs (t.map (fun kv => (kv.1, pyDictOfPairs kv.2))) = t := by
  have hmap : t.map (fun kv => (kv.1, pyDictOfPairs kv.2)) = t := by
    induction t with
    | nil => rfl
    | cons kv rest ih =>
      show (kv.1, pyDictOfPairs kv.2) :: rest.map (fun kv => (kv.1, pyDictOfPairs kv.2)) = _
      rw [pyDictOfPairs_nodup kv.2 (hinner kv (List.mem_cons_self _ _)),
        ih (List.Nodup.of_cons houter) (fun p hp => hinner p (List.mem_cons_of_mem _ hp))]
  rw [hmap]
  exact pyDictOfPairs_nodup t houter

theorem parseTable_encTable (t : UserTable) (houter : (pyKeys t).Nodup)
    (hinner : ∀ kv ∈ t, (pyKeys kv.2).Nodup) :
    parseTable (save_user_info t) = some t := by
  cases t with
  | nil => decide
  | cons kv rest =>
    have hmap : (kv :: rest).map (fun p => encStr p.1 ++ ':' :: ' ' :: encRec p.2) =
        (encStr kv.1 ++ ':' :: ' ' :: encRec kv.2) ::
          rest.map (fun p => encStr p.1 ++ ':' :: ' ' :: encRec p.2) := rfl
    obtain ⟨s, hs⟩ := sepByCommaNl_cons_shape "  ".data
      (encStr kv.1 ++ ':' :: ' ' :: encRec kv.2)
      (rest.map (fun p => encStr p.1 ++ ':' :: ' ' :: encRec p.2))
    show parseTable (String.mk ('{' :: ('\n' ::
        (sepByCommaNl "  ".data
          ((kv :: rest).map (fun p => encStr p.1 ++ ':' :: ' ' :: encRec p.2))
          ++ ('\n' :: ['}']))))) = _
    conv_lhs => unfold parseTable
    rw [show (String.mk ('{' :: ('\n' ::
        (sepByCommaNl "  ".data
          ((kv :: rest).map (fun p => encStr p.1 ++ ':' :: ' ' :: encRec p.2))
          ++ ('\n' :: ['}']))))).data =
        '{' :: ('\n' ::
        (sepByCommaNl "  ".data
          ((kv :: rest).map (fun p => encStr p.1 ++ ':' :: ' ' :: encRec p.2))
          ++ ('\n' :: ['}']))) from rfl]
    rw [skipWs_cons_false '{' _ (by decide)]
    simp only [reduceIte]
    have hskip : skipWs ('\n' ::
        (sepByCommaNl "  ".data
          ((kv :: rest).map (fun p => encStr p.1 ++ ':' :: ' ' :: encRec p.2))
          ++ ('\n' :: ['}']))) =
        '"' :: (((escBody kv.1.data ++ ['"']) ++ ':' :: ' ' :: encRec kv.2 ++ s)
          ++ ('\n' :: ['}'])) := by
      have h1 : ('\n' ::
          (sepByCommaNl "  ".data
            ((kv :: rest).map (fun p => encStr p.1 ++ ':' :: ' ' :: encRec p.2))
            ++ ('\n' :: ['}']))) =
          ('\n' :: "  ".data) ++
            ('"' :: (((escBody kv.1.data ++ ['"']) ++ ':' :: ' ' :: encRec kv.2 ++ s)
              ++ ('\n' :: ['}']))) := by
        rw [hmap, hs]
        show ('\n' ::
            ("  ".data ++ ((('"' :: (escBody kv.1.data ++ ['"'])) ++ ':' :: ' ' :: encRec kv.2
              ++ s)) ++ ('\n' :: ['}']))) = _
        simp [List.append_assoc]
      rw [h1, skipWs_ws_append _ _ (by decide), skipWs_cons_false '"' _ (by decide)]
    rw [hskip]
    simp only [reduceIte]
    rw [show ('\n' ::
        (sepByCommaNl "  ".data
          ((kv :: rest).map (fun p => encStr p.1 ++ ':' :: ' ' :: encRec p.2))
          ++ ('\n' :: ['}']))) =
        ['\n'] ++
        (sepByCommaNl "  ".data
          ((kv :: rest).map (fun p => encStr p.1 ++ ':' :: ' ' :: encRec p.2))
          ++ ('\n' :: ['}'])) from rfl]
    rw [parseTableEntries_ws _ _ _ (by decide)]
    rw [show (sepByCommaNl "  ".data
          ((kv :: rest).map (fun p => encStr p.1 ++ ':' :: ' ' :: encRec p.2))
          ++ ('\n' :: ['}'])) =
        (sepByCommaNl "  ".data
          ((kv :: rest).map (fun p => encStr p.1 ++ ':' :: ' ' :: encRec p.2))
          ++ ('\n' :: ([] ++ ('}' :: [])))) from rfl]
    rw [parseTableEntries_print (kv :: rest) _ "  ".data [] [] (by simp)
      ?_ (by decide) (by decide)]
    · rw [if_neg (show ¬('"' = '}') from by decide)]
      show (if (skipWs []).isEmpty = true then
          some (pyDictOfPairs ((kv :: rest).map (fun p => (p.1, pyDictOfPairs p.2))))
        else none) = some (kv :: rest)
      rw [if_pos (by decide)]
      rw [table_collapse (kv :: rest) houter hinner]
    · have hlen := sepByCommaNl_length_ge "  ".data
        ((kv :: rest).map (fun p => encStr p.1 ++ ':' :: ' ' :: encRec p.2))
        (by
          intro x hx
          obtain ⟨p, hp, rfl⟩ := List.mem_map.mp hx
          show encStr p.1 ++ ':' :: ' ' :: encRec p.2 ≠ []
          simp [encStr])
      rw [List.length_map] at hlen
      refine le_trans hlen ?_
      simp only [List.length_append, List.length_cons]
      omega

/-- C8: confirmed.  Saving a well-formed table (distinct keys, as any
Python dict has) and loading it back returns the same table: the json
serialization round-trips exactly, including escaped strings and ints. -/
theorem claim_C8 (t : UserTable) (h : tableNodup t = true) :
    load_user_info (.content (save_user_info t)) = t := by
  have hsplit : (pyKeys t).Nodup ∧ ∀ kv ∈ t, (pyKeys kv.2).Nodup := by
    unfold tableNodup at h
    simp only [Bool.and_eq_true, decide_eq_true_eq, List.all_eq_true] at h
    exact ⟨h.1, h.2⟩
  have hp : parseTable (save_user_info t) = some t :=
    parseTable_encTable t hsplit.1 hsplit.2
  show (match parseTable (save_user_info t) with
    | some t2 => t2
    | none => []) = t
  rw [hp]

theorem claim_C8_witness :
    tableNodup [("123", [("nickname", PyVal.pstr "阿梓\n\"喵\""), ("timestamp", PyVal.pint 1700000000)]),
      ("456", [])] = true ∧
    load_user_info (.content (save_user_info
      [("123", [("nickname", PyVal.pstr "阿梓\n\"喵\""), ("timestamp", PyVal.pint 1700000000)]),
       ("456", [])])) =
      [("123", [("nickname", PyVal.pstr "阿梓\n\"喵\""), ("timestamp", PyVal.pint 1700000000)]),
       ("456", [])] :=
  ⟨by decide,
   claim_C8 [("123", [("nickname", PyVal.pstr "阿梓\n\"喵\""), ("timestamp", PyVal.pint 1700000000)]),
     ("456", [])] (by decide)⟩

theorem claim_C9_witness :
    (pyGet [("123", [("nickname", PyVal.pstr "")])] (String.mk "123".data) =
        some [("nickname", PyVal.pstr "")] ∧
      Part000.replace_nickname_in_context [("123", [("nickname", PyVal.pstr "")])]
        (Part000.tokenStr "123".data "Bob".data) = Part000.tokenStr "123".data "Bob".data) ∧
    Part000.replace_nickname_in_context [] "hello" = "hello" ∧
    Part000.replace_nickname_in_context [("1", [])] "" = "" :=
  ⟨⟨by decide,
    claim_C9.2.2 [("123", [("nickname", PyVal.pstr "")])] "123".data "Bob".data
      [("nickname", PyVal.pstr "")] (by decide) (Or.inr (by decide)) (by decide) (by decide)
      (by decide) (by decide)⟩,
   claim_C9.1 "hello", claim_C9.2.1 [("1", [])]⟩
